import Mathlib

/-!
Verification development for the YOLOv5 TensorRT inference server
(detect_trt_server.py, with the score-threshold variant of
detect_trt_fp32_server.py covered through the shared decoding function):
a shallow embedding of the detection decoding, suppression, counting,
metrics and persistence pipeline, followed by theorems about it.
-/

set_option maxRecDepth 16384

/-- Model of a Python/numpy floating-point value: a finite value embedded
as an exact rational, NaN, or a signed infinity. -/
inductive PFloat where
  | val (q : ℚ)
  | nan
  | posInf
  | negInf
deriving DecidableEq, Repr

/-- np.isnan and math.isnan on one value. -/
def PFloat.isnan : PFloat → Bool
  | .nan => true
  | _ => false

/-- math.isfinite. -/
def PFloat.isfinite : PFloat → Bool
  | .val _ => true
  | _ => false

/-- Python comparison a < b on floats: every comparison involving NaN is
False; infinities compare in the usual way. -/
def PFloat.lt : PFloat → PFloat → Bool
  | .val a, .val b => decide (a < b)
  | .val _, .posInf => true
  | .negInf, .val _ => true
  | .negInf, .posInf => true
  | _, _ => false

/-- The finite value carried by a model float, when there is one. -/
def PFloat.toRat : PFloat → Option ℚ
  | .val q => some q
  | _ => none

/-- Rank used by the total order below: NaN lowest, then negative
infinity, finite values, positive infinity.  The pipeline never sorts
NaN values (rows containing NaN are filtered before suppression), so the
position given to NaN is unobservable. -/
def PFloat.rank : PFloat → ℕ
  | .nan => 0
  | .negInf => 1
  | .val _ => 2
  | .posInf => 3

/-- Total order on model floats, used by the suppression sort. -/
def PFloat.leb : PFloat → PFloat → Bool
  | .val a, .val b => decide (a ≤ b)
  | a, b => decide (a.rank ≤ b.rank)

/-- The model float is at least the rational q; positive infinity counts
as above every rational, NaN and negative infinity as not. -/
def PFloat.geb : PFloat → ℚ → Bool
  | .val a, q => decide (q ≤ a)
  | .posInf, _ => true
  | _, _ => false

/-- Scan step of np.argmax: remember the first maximal entry seen so far
and replace it only on a strictly greater value. -/
def npArgmaxGo : List PFloat → ℕ → ℕ → PFloat → ℕ
  | [], _, bi, _ => bi
  | x :: rest, i, bi, bv =>
      if PFloat.lt bv x then npArgmaxGo rest (i + 1) i x
      else npArgmaxGo rest (i + 1) bi bv

/-- np.argmax over a score slice.  numpy raises on an empty input; the
caller checks for that case and raises, so the value returned here for
the empty list is never used. -/
def npArgmax : List PFloat → ℕ
  | [] => 0
  | x :: rest => npArgmaxGo rest 1 0 x

/-- Python int() applied to a finite float truncates toward zero; on an
exact rational this is truncating division of numerator by denominator. -/
def pyTrunc (q : ℚ) : ℤ := q.num.tdiv (q.den : ℤ)

/-- One anchor row of the raw output tensor, that is one entry of
yolov5_output[0]: columns 0 to 3 are the box parameters, column 4 the
objectness confidence, columns 5 onward the per-class scores. -/
structure RawRow where
  cx : PFloat
  cy : PFloat
  w : PFloat
  h : PFloat
  conf : PFloat
  scores : List PFloat
deriving DecidableEq, Repr

/-- np.isnan(detect).any() over one row. -/
def RawRow.hasNaN (r : RawRow) : Bool :=
  r.cx.isnan || r.cy.isnan || r.w.isnan || r.h.isnan || r.conf.isnan ||
    r.scores.any PFloat.isnan

/-- The row contains some non-finite entry (NaN or an infinity). -/
def RawRow.hasNonFinite (r : RawRow) : Bool :=
  !r.cx.isfinite || !r.cy.isfinite || !r.w.isfinite || !r.h.isfinite ||
    !r.conf.isfinite || r.scores.any (fun s => !s.isfinite)

/-- A post-filter candidate: one entry across the parallel lists
class_ids, confidences, bboxes and yolo_bboxes built by the decoding
loop of postprocess_image. -/
structure Candidate where
  classIdx : ℕ
  conf : PFloat
  x : ℤ
  y : ℤ
  w : ℤ
  h : ℤ
  yolo : ℚ × ℚ × ℚ × ℚ
deriving DecidableEq, Repr

instance : Inhabited Candidate := ⟨⟨0, .val 0, 0, 0, 0, 0, (0, 0, 0, 0)⟩⟩

/-- Python exceptions that can escape postprocess_image; they are caught
by the blanket handler in infer_single_image. -/
inductive PyExc where
  | valueError
  | attributeError
deriving DecidableEq, Repr

instance {ε α : Type} [DecidableEq ε] [DecidableEq α] : DecidableEq (Except ε α) :=
  fun x y =>
    match x, y with
    | .error a, .error b =>
        if h : a = b then isTrue (by rw [h]) else isFalse (by simp [h])
    | .ok a, .ok b =>
        if h : a = b then isTrue (by rw [h]) else isFalse (by simp [h])
    | .error _, .ok _ => isFalse (by simp)
    | .ok _, .error _ => isFalse (by simp)

/-- One iteration of the decoding loop in postprocess_image
(detect_trt_server.py lines 397 to 446): the result is none when the row
is skipped by a continue statement, the candidate otherwise, and an
exception when numpy raises (argmax of an empty score slice).  scoreTh
is the threshold compared against the best class score:
detect_trt_server.py passes conf_th there (the single-threshold
variant), detect_trt_fp32_server.py passes its separate score_th. -/
def decodeRow (confTh scoreTh : ℚ) (scaleX scaleY : ℚ) (width height : ℤ)
    (r : RawRow) : Except PyExc (Option Candidate) :=
  if r.hasNaN then .ok none
  else if PFloat.lt r.conf (.val confTh) then .ok none
  else if r.scores.isEmpty then .error .valueError
  else
    let classIdx := npArgmax r.scores
    if PFloat.lt (r.scores.getD classIdx .nan) (.val scoreTh) then .ok none
    else
      match r.cx.toRat, r.cy.toRat, r.w.toRat, r.h.toRat with
      | some cx, some cy, some bw, some bh =>
          let topLeftX := max 0 (pyTrunc ((cx - bw / 2) * scaleX))
          let topLeftY := max 0 (pyTrunc ((cy - bh / 2) * scaleY))
          let widthScaled := min (width - topLeftX) (pyTrunc (bw * scaleX))
          let heightScaled := min (height - topLeftY) (pyTrunc (bh * scaleY))
          if widthScaled ≤ 0 ∨ heightScaled ≤ 0 then .ok none
          else .ok (some ⟨classIdx, r.conf, topLeftX, topLeftY, widthScaled,
            heightScaled, (cx, cy, bw, bh)⟩)
      | _, _, _, _ => .ok none

/-- The decoding loop over all rows of yolov5_output[0], collecting the
candidates in row order; an exception raised at any row aborts the whole
loop. -/
def decodeAll (confTh scoreTh scaleX scaleY : ℚ) (width height : ℤ) :
    List RawRow → Except PyExc (List Candidate)
  | [] => .ok []
  | r :: rest =>
      match decodeRow confTh scoreTh scaleX scaleY width height r with
      | .error e => .error e
      | .ok none => decodeAll confTh scoreTh scaleX scaleY width height rest
      | .ok (some c) =>
          match decodeAll confTh scoreTh scaleX scaleY width height rest with
          | .error e => .error e
          | .ok cs => .ok (c :: cs)

/-- A pixel-space bounding box in top-left x, top-left y, width, height
form, as passed to the suppression stage. -/
structure Box where
  x : ℤ
  y : ℤ
  w : ℤ
  h : ℤ
deriving DecidableEq, Repr

instance : Inhabited Box := ⟨⟨0, 0, 0, 0⟩⟩

/-- Intersection-over-union of two boxes, computed over the rationals
(degenerate unions give 0 rather than raising, and degenerate boxes were
already excluded upstream by the decoder). -/
def iou (a b : Box) : ℚ :=
  let interW : ℤ := max 0 (min (a.x + a.w) (b.x + b.w) - max a.x b.x)
  let interH : ℤ := max 0 (min (a.y + a.h) (b.y + b.h) - max a.y b.y)
  let inter : ℤ := interW * interH
  let union : ℤ := a.w * a.h + b.w * b.h - inter
  (inter : ℚ) / (union : ℚ)

/-- Modelled from the spec: the visit order of the Suppressor.  The
repository delegates suppression to cv2.dnn.NMSBoxes, an external OpenCV
routine whose implementation is not part of this repository; the spec's
Suppressor contract (section 4.2) prescribes greedy suppression visiting
candidates by decreasing confidence, ties broken by lower original index
(stable sort).  Class labels play no role: the call site passes only
boxes and confidences, so suppression is joint across classes. -/
def nmsOrder (confs : List PFloat) : List ℕ :=
  List.insertionSort
    (fun i j => PFloat.leb (confs.getD j .nan) (confs.getD i .nan) = true)
    (List.range confs.length)

/-- Modelled from the spec: the greedy suppression pass over the visit
order, carrying the list of already-retained indices; a visited candidate
is retained exactly when its IoU with every previously retained candidate
is at most the threshold. -/
def nmsAux (boxes : List Box) (th : ℚ) : List ℕ → List ℕ → List ℕ
  | _, [] => []
  | kept, i :: rest =>
      if ∀ j ∈ kept, iou (boxes.getD i default) (boxes.getD j default) ≤ th then
        i :: nmsAux boxes th (kept ++ [i]) rest
      else
        nmsAux boxes th kept rest

/-- Decision trace of the greedy pass: for each visited index, the list
of previously retained indices at that moment and whether the index was
retained. -/
def nmsTrace (boxes : List Box) (th : ℚ) : List ℕ → List ℕ → List (ℕ × List ℕ × Bool)
  | _, [] => []
  | kept, i :: rest =>
      if ∀ j ∈ kept, iou (boxes.getD i default) (boxes.getD j default) ≤ th then
        (i, kept, true) :: nmsTrace boxes th (kept ++ [i]) rest
      else
        (i, kept, false) :: nmsTrace boxes th kept rest

/-- Modelled from the spec: the retained index subset returned by the
suppression stage (the result of the cv2.dnn.NMSBoxes call). -/
def nmsBoxesModel (boxes : List Box) (confs : List PFloat) (th : ℚ) : List ℕ :=
  nmsAux boxes th [] (nmsOrder confs)

/-- The index list passed on from suppression: NMSBoxes is invoked only
when there is at least one candidate (the call-site guard on
len(bboxes) > 0); with no candidates the retained list is empty. -/
def keptIdxOf (nmsTh : ℚ) (cands : List Candidate) : List ℕ :=
  if 0 < cands.length then
    nmsBoxesModel (cands.map (fun c => Box.mk c.x c.y c.w c.h))
      (cands.map Candidate.conf) nmsTh
  else []

/-- First-occurrence deduplication of the class-label list, matching the
key set and order of the Python dict comprehension in reset_counters
(later duplicates re-assign the same key). -/
def firstDedup : List String → List String
  | [] => []
  | s :: rest => s :: (firstDedup rest).filter (fun t => t ≠ s)

/-- The mutable counters of TRTInferenceYolov5. -/
structure Counters where
  totalObjects : ℕ
  objectsByClass : List (String × ℕ)
  invalidOutputs : ℕ
  totalTime : ℚ
  inferenceTime : ℚ
  numFrames : ℕ
deriving DecidableEq, Repr

/-- reset_counters (detect_trt_server.py lines 104 to 111): all counters
zeroed, objects_by_class mapping every class label to zero. -/
def reset_counters (classLabels : List String) : Counters :=
  { totalObjects := 0
    objectsByClass := (firstDedup classLabels).map (fun s => (s, 0))
    invalidOutputs := 0
    totalTime := 0
    inferenceTime := 0
    numFrames := 0 }

/-- The increment objects_by_class[name] += 1 on the name-keyed counter
dictionary.  Whenever the code reaches it, the key is present: the name
comes from class_labels and the dictionary was initialized from that same
list. -/
def incrClass : List (String × ℕ) → String → List (String × ℕ)
  | [], _ => []
  | (k, v) :: rest, name =>
      if k = name then (k, v + 1) :: rest else (k, v) :: incrClass rest name

/-- One surviving detection as stored in the result dictionary: resolved
class name, confidence, pixel box and the raw normalized-space box. -/
structure Detection where
  className : String
  conf : PFloat
  x : ℤ
  y : ℤ
  w : ℤ
  h : ℤ
  yolo : ℚ × ℚ × ℚ × ℚ
deriving DecidableEq, Repr

/-- Resolve the class name of a candidate: an index inside the label
table yields that label, an out-of-range index maps to the sentinel
Unknown name. -/
def resolveClassName (classLabels : List String) (c : Candidate) : String :=
  if c.classIdx < classLabels.length then classLabels.getD c.classIdx ("")
  else ("Unknown")

/-- Build the stored detection record for one retained candidate. -/
def mkDetection (classLabels : List String) (c : Candidate) : Detection :=
  { className := resolveClassName classLabels c
    conf := c.conf
    x := c.x
    y := c.y
    w := c.w
    h := c.h
    yolo := c.yolo }

/-- The counter mutations of one iteration of the drawing loop: increment
total_objects, and increment objects_by_class only when the class index
is inside the label table. -/
def stepSt (classLabels : List String) (cands : List Candidate) (i : ℕ)
    (st : Counters) : Counters :=
  let c := cands.getD i default
  let st1 : Counters := { st with totalObjects := st.totalObjects + 1 }
  if c.classIdx < classLabels.length then
    { st1 with objectsByClass :=
        incrClass st1.objectsByClass (resolveClassName classLabels c) }
  else st1

/-- The drawing loop over the indices retained by suppression
(detect_trt_server.py lines 457 to 497): per retained index, apply the
counter mutations and collect the detection record, in retained order. -/
def countDetections (classLabels : List String) (cands : List Candidate) :
    List ℕ → Counters → List Detection × Counters
  | [], st => ([], st)
  | i :: rest, st =>
      let (ds, st3) :=
        countDetections classLabels cands rest (stepSt classLabels cands i st)
      (mkDetection classLabels (cands.getD i default) :: ds, st3)

/-- What postprocess_image writes to the output path: the unmodified
image with only the fixed NaN warning caption, the image with the
surviving detections drawn (possibly none), or nothing at all (early
return when the image cannot be re-read). -/
inductive RenderAction where
  | warningCaption
  | annotated (dets : List Detection)
  | noWrite
deriving DecidableEq, Repr

/-- The data reaching one postprocess_image call: the rows of
yolov5_output[0], the original image dimensions, the stored resized-input
dimensions (self.resized_img_w and self.resized_img_h), whether
cv2.imread succeeds again on the image path at postprocessing time, and
the measured preprocessing and inference durations of the frame. -/
structure Frame where
  rows : List RawRow
  height : ℤ
  width : ℤ
  resizedW : ℤ
  resizedH : ℤ
  imageOk : Bool
  preTime : ℚ
  infTime : ℚ
deriving DecidableEq, Repr

/-- postprocess_image (detect_trt_server.py lines 349 to 527).  If the
tensor contains any NaN the function short-circuits: it increments the
invalid-output counter, then annotates and saves the image with the fixed
warning caption (an unreadable image there raises AttributeError, after
the counter increment).  Otherwise it decodes every row with conf_th used
for both threshold checks (the single-threshold variant), suppresses,
then counts and draws the retained candidates.  Counters other than the
ones named are never touched. -/
def postprocess_image (classLabels : List String) (confTh nmsTh : ℚ)
    (f : Frame) (st : Counters) :
    Counters × Except PyExc (List Detection × RenderAction) :=
  if f.rows.any RawRow.hasNaN then
    let st1 : Counters := { st with invalidOutputs := st.invalidOutputs + 1 }
    if f.imageOk then (st1, .ok ([], .warningCaption))
    else (st1, .error .attributeError)
  else if !f.imageOk then (st, .ok ([], .noWrite))
  else
    let scaleX : ℚ := (f.width : ℚ) / (f.resizedW : ℚ)
    let scaleY : ℚ := (f.height : ℚ) / (f.resizedH : ℚ)
    match decodeAll confTh confTh scaleX scaleY f.width f.height f.rows with
    | .error e => (st, .error e)
    | .ok cands =>
        let (dets, st1) :=
          countDetections classLabels cands (keptIdxOf nmsTh cands) st
        (st1, .ok (dets, .annotated dets))

/-- The candidates retained by suppression for one frame: empty when the
frame short-circuits on NaN, when the image cannot be re-read, or when
decoding raises. -/
def survivors (confTh nmsTh : ℚ) (f : Frame) : List Candidate :=
  if f.rows.any RawRow.hasNaN then []
  else if !f.imageOk then []
  else
    let scaleX : ℚ := (f.width : ℚ) / (f.resizedW : ℚ)
    let scaleY : ℚ := (f.height : ℚ) / (f.resizedH : ℚ)
    match decodeAll confTh confTh scaleX scaleY f.width f.height f.rows with
    | .error _ => []
    | .ok cands => (keptIdxOf nmsTh cands).map (fun i => cands.getD i default)

/-- A Python ZeroDivisionError surfaced by metrics generation. -/
inductive DivErr where
  | divideByZero
deriving DecidableEq, Repr

/-- The filled metrics dictionary. -/
structure MetricsData where
  numFrames : ℕ
  totalTime : ℚ
  inferenceTime : ℚ
  averageFps : ℚ
  averageInferenceTime : ℚ
  totalObjects : ℕ
  invalidOutputs : ℕ
  objectsByClass : List (String × ℕ)
deriving DecidableEq, Repr

/-- generate_metrics (detect_trt_server.py lines 529 to 548): when
num_frames > 0 the report is filled, and the average-FPS division
num_frames / total_time raises ZeroDivisionError when total_time is zero
(Python float division by zero raises); when num_frames = 0 the empty
dictionary is returned, modelled as none. -/
def generate_metrics (st : Counters) : Except DivErr (Option MetricsData) :=
  if 0 < st.numFrames then
    if st.totalTime = 0 then .error .divideByZero
    else
      .ok (some
        { numFrames := st.numFrames
          totalTime := st.totalTime
          inferenceTime := st.inferenceTime
          averageFps := (st.numFrames : ℚ) / st.totalTime
          averageInferenceTime := st.inferenceTime / (st.numFrames : ℚ)
          totalObjects := st.totalObjects
          invalidOutputs := st.invalidOutputs
          objectsByClass := st.objectsByClass })
  else .ok none

/-- The per-image result dictionary returned by infer_single_image. -/
structure ImageResult where
  success : Bool
  inputPath : String
  detections : List Detection
deriving DecidableEq, Repr

/-- The timing-counter updates of infer_single_image once preprocessing
and inference both succeeded: total_time += preprocess_time, then
inference_time += inference_time and total_time += inference_time. -/
def preInfSt (f : Frame) (st : Counters) : Counters :=
  { st with inferenceTime := st.inferenceTime + f.infTime,
            totalTime := st.totalTime + f.preTime + f.infTime }

/-- infer_single_image (detect_trt_server.py lines 212 to 287), with the
image reading, CUDA transfer and engine execution abstracted by the
loaded outcome: none means preprocessing or inference raised (so the
blanket handler returns a failure dictionary before any timing counter
was advanced), some f carries the tensor and measured durations reaching
postprocessing.  The preprocess and inference durations are added to the
counters only after the corresponding step succeeds, and postprocessing
exceptions are caught after its partial counter mutations took effect. -/
def infer_single_image (classLabels : List String) (confTh nmsTh : ℚ)
    (imagePath : String) (load : Option Frame) (resetFlag : Bool)
    (st0 : Counters) : ImageResult × Counters :=
  let st := if resetFlag then
      { reset_counters classLabels with numFrames := 1 }
    else st0
  match load with
  | none => ({ success := false, inputPath := imagePath, detections := [] }, st)
  | some f =>
      match postprocess_image classLabels confTh nmsTh f (preInfSt f st) with
      | (st3, .error _) =>
          ({ success := false, inputPath := imagePath, detections := [] }, st3)
      | (st3, .ok (dets, _)) =>
          ({ success := true, inputPath := imagePath, detections := dets }, st3)

/-- os.path.join of a folder path and a filename. -/
def pathJoin (folder name : String) : String := folder ++ ("/") ++ name

/-- The image filename extensions accepted by get_images_from_folder. -/
def image_extensions : List String := [".jpg", ".jpeg", ".png", ".bmp"]

/-- get_images_from_folder (detect_trt_server.py lines 193 to 210):
filter the os.listdir listing by lower-cased extension and join each kept
name onto the folder path, preserving listing order (os.listdir returns
an unspecified order and the function does not sort). -/
def get_images_from_folder (folder : String) (listing : List String) :
    List String :=
  (listing.filter
    (fun f => image_extensions.any (fun ext => f.toLower.endsWith ext))).map
    (pathJoin folder)

/-- The per-image loop of infer_folder: run infer_single_image on each
path without resetting counters and append each result dictionary, in
path order. -/
def folderLoop (classLabels : List String) (confTh nmsTh : ℚ)
    (load : String → Option Frame) :
    List String → List ImageResult → Counters → List ImageResult × Counters
  | [], acc, st => (acc, st)
  | p :: rest, acc, st =>
      let (r, st1) :=
        infer_single_image classLabels confTh nmsTh p (load p) false st
      folderLoop classLabels confTh nmsTh load rest (acc ++ [r]) st1

/-- The success-True batch dictionary of infer_folder. -/
structure FolderBatch where
  metrics : Option MetricsData
  results : List ImageResult
deriving DecidableEq, Repr

/-- The outcome dictionary of infer_folder: the success-False
no-valid-images dictionary, or the success-True batch dictionary. -/
inductive FolderOutcome where
  | noImages
  | batch (b : FolderBatch)
deriving DecidableEq, Repr

/-- infer_folder (detect_trt_server.py lines 289 to 347): reset the
counters, list the folder, set num_frames to the number of listed images,
return the failure dictionary when none were found, otherwise process the
images in listing order collecting the result dictionaries, and finally
generate the metrics (whose ZeroDivisionError, if any, escapes
infer_folder).  The final counter state is returned alongside for
inspection. -/
def infer_folder (classLabels : List String) (confTh nmsTh : ℚ)
    (folder : String) (listing : List String)
    (load : String → Option Frame) :
    Except DivErr FolderOutcome × Counters :=
  let st := reset_counters classLabels
  let paths := get_images_from_folder folder listing
  let st1 : Counters := { st with numFrames := paths.length }
  if paths.isEmpty then (.ok .noImages, st1)
  else
    let (results, st2) := folderLoop classLabels confTh nmsTh load paths [] st1
    match generate_metrics st2 with
    | .error e => (.error e, st2)
    | .ok m => (.ok (.batch { metrics := m, results := results }), st2)

/-- os.path.basename: the final path component. -/
def basename (p : String) : String := (p.splitOn ("/")).getLastD p

/-- One row of the detections.csv log file. -/
inductive LogRow where
  | header
  | record (imageFile className : String) (conf : PFloat) (x y w h : ℤ)
      (yolo : ℚ × ℚ × ℚ × ℚ)
deriving DecidableEq, Repr

/-- The cells of the fixed header row written by _init_csv_file. -/
def csvHeaderCells : List String :=
  ["image_file", "class", "confidence", "x", "y", "width", "height",
   "center_x_norm", "center_y_norm", "width_norm", "height_norm"]

/-- _init_csv_file (detect_trt_server.py lines 619 to 626): when the CSV
file does not exist, create it containing exactly the header row; an
existing file is left untouched.  The file state is none when the file
does not exist, otherwise its rows in order. -/
def init_csv_file : Option (List LogRow) → Option (List LogRow)
  | none => some [LogRow.header]
  | some rows => some rows

/-- The CSV rows appended for one image's detections, one per detection,
in detection order. -/
def detectionRows (imagePath : String) (dets : List Detection) : List LogRow :=
  dets.map (fun d =>
    LogRow.record (basename imagePath) d.className d.conf d.x d.y d.w d.h d.yolo)

/-- _write_detections_to_csv (detect_trt_server.py lines 736 to 766):
return immediately on an empty detection list, otherwise open the file in
append mode (creating it when absent) and write one row per detection,
leaving all existing rows in place. -/
def write_detections_to_csv (file : Option (List LogRow))
    (imagePath : String) (dets : List Detection) : Option (List LogRow) :=
  if dets.isEmpty then file
  else some (file.getD [] ++ detectionRows imagePath dets)

/-- The CSV-writing pass of _process_folder (detect_trt_server.py lines
788 to 807): after a folder batch, iterate the result list in order and
append each successful image's detections to the log (failed results
carry no detections key and are skipped). -/
def process_folder_csv (file : Option (List LogRow)) :
    List ImageResult → Option (List LogRow)
  | [] => file
  | r :: rest =>
      process_folder_csv
        (if r.success then
          write_detections_to_csv file r.inputPath r.detections
        else file) rest

/-- Whether an Except value is a success. -/
def isOkB {e a : Type} : Except e a → Bool
  | .ok _ => true
  | .error _ => false

/-- Whether postprocess_image completes without raising for a frame:
false exactly when the tensor has NaN and the image cannot be re-read,
or when decoding itself raises. -/
def frameSucceeds (confTh : ℚ) (f : Frame) : Bool :=
  if f.rows.any RawRow.hasNaN then f.imageOk
  else if !f.imageOk then true
  else
    match decodeAll confTh confTh ((f.width : ℚ) / (f.resizedW : ℚ))
        ((f.height : ℚ) / (f.resizedH : ℚ)) f.width f.height f.rows with
    | .ok _ => true
    | .error _ => false

/-- The number of surviving detections contributed by one loaded outcome
(zero when loading failed). -/
def loadSurvCount (confTh nmsTh : ℚ) : Option Frame → ℕ
  | none => 0
  | some f => (survivors confTh nmsTh f).length

/-- The total-time contribution of one loaded outcome (zero when loading
failed, since the duration counters advance only after each step
succeeds). -/
def loadTime : Option Frame → ℚ
  | none => 0
  | some f => f.preTime + f.infTime

/-- The result dictionary produced for one image, which does not depend
on the counter state threaded through the batch. -/
def imageResultOf (classLabels : List String) (confTh nmsTh : ℚ)
    (imagePath : String) (load : Option Frame) : ImageResult :=
  (infer_single_image classLabels confTh nmsTh imagePath load false
    (reset_counters classLabels)).1

/-- The counter state after postprocessing a sequence of frames starting
from freshly reset counters. -/
def processFrames (classLabels : List String) (confTh nmsTh : ℚ)
    (frames : List Frame) : Counters :=
  frames.foldl
    (fun st f => (postprocess_image classLabels confTh nmsTh f st).1)
    (reset_counters classLabels)

/-- Projection: the result list inside a folder outcome. -/
def folderResultsOf : Except DivErr FolderOutcome → List ImageResult
  | .ok (.batch b) => b.results
  | _ => []

/-- Projection: the metrics inside a folder outcome. -/
def folderMetricsOf : Except DivErr FolderOutcome → Option MetricsData
  | .ok (.batch b) => b.metrics
  | _ => none

/-- A raw row whose entries are all positive infinity: non-finite
throughout, yet free of NaN. -/
def infRow : RawRow := ⟨.posInf, .posInf, .posInf, .posInf, .posInf, [.posInf]⟩

/-- A frame whose tensor is the single all-infinity row. -/
def infFrame : Frame :=
  { rows := [infRow], height := 640, width := 640, resizedW := 640,
    resizedH := 640, imageOk := true, preTime := 0, infTime := 0 }

/-- A raw row containing a NaN entry. -/
def nanRow : RawRow := ⟨.val 100, .val 100, .val 50, .val 60, .nan, [.val 1]⟩

/-- A frame whose tensor contains NaN. -/
def nanFrame : Frame :=
  { rows := [nanRow], height := 640, width := 640, resizedW := 640,
    resizedH := 640, imageOk := true, preTime := 0, infTime := 0 }

/-- A trivial frame: empty tensor, readable image, unit preprocessing
time. -/
def trivFrame : Frame :=
  { rows := [], height := 640, width := 640, resizedW := 640,
    resizedH := 640, imageOk := true, preTime := 1, infTime := 0 }

/-- A raw row that decodes to a candidate sitting exactly on the
confidence threshold 1/4. -/
def boundaryRow : RawRow :=
  ⟨.val 100, .val 100, .val 50, .val 60, .val (1/4), [.val (1/2)]⟩

/-- Sum of all per-class counts in the objects_by_class dictionary. -/
def sumCounts (m : List (String × ℕ)) : ℕ := (m.map Prod.snd).sum

/-- Key list of the objects_by_class dictionary. -/
def keysOf (m : List (String × ℕ)) : List String := m.map Prod.fst

lemma keysOf_incrClass (m : List (String × ℕ)) (name : String) :
    keysOf (incrClass m name) = keysOf m := by
  induction m with
  | nil => rfl
  | cons kv rest ih =>
      obtain ⟨k, v⟩ := kv
      by_cases h : k = name
      · simp [incrClass, h, keysOf]
      · simp only [incrClass, if_neg h, keysOf, List.map_cons]
        simpa [keysOf] using ih

lemma sumCounts_incrClass (m : List (String × ℕ)) (name : String)
    (h : name ∈ keysOf m) :
    sumCounts (incrClass m name) = sumCounts m + 1 := by
  induction m with
  | nil => simp [keysOf] at h
  | cons kv rest ih =>
      obtain ⟨k, v⟩ := kv
      by_cases hk : k = name
      · simp [incrClass, hk, sumCounts]
        omega
      · have h' : name ∈ keysOf rest := by
          simp only [keysOf, List.map_cons] at h
          rcases List.mem_cons.mp h with h1 | h1
          · exact absurd h1.symm hk
          · exact h1
        have hrec := ih h'
        simp only [incrClass, if_neg hk, sumCounts, List.map_cons,
          List.sum_cons] at hrec ⊢
        omega

lemma mem_firstDedup (s : String) (l : List String) :
    s ∈ firstDedup l ↔ s ∈ l := by
  induction l with
  | nil => simp [firstDedup]
  | cons a rest ih =>
      by_cases h : s = a
      · simp [firstDedup, h]
      · simp [firstDedup, h, List.mem_filter, ih]

lemma sumCounts_reset (classLabels : List String) :
    sumCounts (reset_counters classLabels).objectsByClass = 0 := by
  simp [reset_counters, sumCounts]
  induction firstDedup classLabels with
  | nil => simp
  | cons a rest ih => simpa using ih

lemma keysOf_reset (classLabels : List String) :
    keysOf (reset_counters classLabels).objectsByClass =
      firstDedup classLabels := by
  simp only [reset_counters, keysOf, List.map_map]
  exact List.map_id _

lemma resolveClassName_mem (classLabels : List String) (c : Candidate)
    (h : c.classIdx < classLabels.length) :
    resolveClassName classLabels c ∈ firstDedup classLabels := by
  rw [mem_firstDedup]
  simp only [resolveClassName, if_pos h]
  rw [List.getD_eq_getElem?_getD, List.getElem?_eq_getElem h]
  exact List.getElem_mem h

lemma countDetections_cons (classLabels : List String)
    (cands : List Candidate) (i : ℕ) (rest : List ℕ) (st : Counters) :
    countDetections classLabels cands (i :: rest) st =
      (mkDetection classLabels (cands.getD i default) ::
        (countDetections classLabels cands rest (stepSt classLabels cands i st)).1,
       (countDetections classLabels cands rest (stepSt classLabels cands i st)).2) := by
  cases hcd : countDetections classLabels cands rest (stepSt classLabels cands i st) with
  | mk ds st3 => simp [countDetections, hcd]

lemma stepSt_totalObjects (classLabels : List String) (cands : List Candidate)
    (i : ℕ) (st : Counters) :
    (stepSt classLabels cands i st).totalObjects = st.totalObjects + 1 := by
  by_cases h : (cands.getD i default).classIdx < classLabels.length
  · simp only [stepSt]
    rw [if_pos h]
  · simp only [stepSt]
    rw [if_neg h]

lemma stepSt_others (classLabels : List String) (cands : List Candidate)
    (i : ℕ) (st : Counters) :
    (stepSt classLabels cands i st).invalidOutputs = st.invalidOutputs ∧
    (stepSt classLabels cands i st).totalTime = st.totalTime ∧
    (stepSt classLabels cands i st).inferenceTime = st.inferenceTime ∧
    (stepSt classLabels cands i st).numFrames = st.numFrames := by
  by_cases h : (cands.getD i default).classIdx < classLabels.length
  · simp only [stepSt]
    rw [if_pos h]
    exact ⟨rfl, rfl, rfl, rfl⟩
  · simp only [stepSt]
    rw [if_neg h]
    exact ⟨rfl, rfl, rfl, rfl⟩

lemma stepSt_keys (classLabels : List String) (cands : List Candidate)
    (i : ℕ) (st : Counters) :
    keysOf (stepSt classLabels cands i st).objectsByClass =
      keysOf st.objectsByClass := by
  by_cases h : (cands.getD i default).classIdx < classLabels.length
  · simp only [stepSt]
    rw [if_pos h]
    exact keysOf_incrClass _ _
  · simp only [stepSt]
    rw [if_neg h]

lemma stepSt_sum (classLabels : List String) (cands : List Candidate)
    (i : ℕ) (st : Counters)
    (hkeys : keysOf st.objectsByClass = firstDedup classLabels) :
    sumCounts (stepSt classLabels cands i st).objectsByClass =
      sumCounts st.objectsByClass +
        (if (cands.getD i default).classIdx < classLabels.length then 1 else 0) := by
  by_cases h : (cands.getD i default).classIdx < classLabels.length
  · have hmem : resolveClassName classLabels (cands.getD i default) ∈
        keysOf st.objectsByClass := by
      rw [hkeys]
      exact resolveClassName_mem classLabels _ h
    simp only [stepSt]
    rw [if_pos h, if_pos h]
    simpa using sumCounts_incrClass st.objectsByClass _ hmem
  · simp only [stepSt]
    rw [if_neg h, if_neg h]
    simp

lemma countDetections_counters (classLabels : List String)
    (cands : List Candidate) (idxs : List ℕ) (st : Counters) :
    (countDetections classLabels cands idxs st).2.totalObjects =
        st.totalObjects + idxs.length ∧
    (countDetections classLabels cands idxs st).2.invalidOutputs =
        st.invalidOutputs ∧
    (countDetections classLabels cands idxs st).2.totalTime = st.totalTime ∧
    (countDetections classLabels cands idxs st).2.inferenceTime =
        st.inferenceTime ∧
    (countDetections classLabels cands idxs st).2.numFrames = st.numFrames ∧
    keysOf (countDetections classLabels cands idxs st).2.objectsByClass =
        keysOf st.objectsByClass := by
  induction idxs generalizing st with
  | nil => simp [countDetections]
  | cons i rest ih =>
      rw [countDetections_cons]
      obtain ⟨h1, h2, h3, h4, h5, h6⟩ := ih (stepSt classLabels cands i st)
      obtain ⟨o1, o2, o3, o4⟩ := stepSt_others classLabels cands i st
      refine ⟨?_, ?_, ?_, ?_, ?_, ?_⟩
      · rw [h1, stepSt_totalObjects]
        simp [List.length_cons]
        omega
      · rw [h2, o1]
      · rw [h3, o2]
      · rw [h4, o3]
      · rw [h5, o4]
      · rw [h6, stepSt_keys]

lemma countDetections_dets (classLabels : List String)
    (cands : List Candidate) (idxs : List ℕ) (st : Counters) :
    (countDetections classLabels cands idxs st).1 =
      idxs.map (fun i => mkDetection classLabels (cands.getD i default)) := by
  induction idxs generalizing st with
  | nil => simp [countDetections]
  | cons i rest ih =>
      rw [countDetections_cons]
      simp [ih]

lemma countDetections_sum (classLabels : List String)
    (cands : List Candidate) (idxs : List ℕ) (st : Counters)
    (hkeys : keysOf st.objectsByClass = firstDedup classLabels) :
    sumCounts (countDetections classLabels cands idxs st).2.objectsByClass =
      sumCounts st.objectsByClass +
        (idxs.filter
          (fun i => (cands.getD i default).classIdx < classLabels.length)).length := by
  induction idxs generalizing st with
  | nil => simp [countDetections]
  | cons i rest ih =>
      rw [countDetections_cons]
      have hrec := ih (stepSt classLabels cands i st)
        (by rw [stepSt_keys]; exact hkeys)
      rw [hrec, stepSt_sum classLabels cands i st hkeys]
      by_cases h : (cands.getD i default).classIdx < classLabels.length
      · rw [if_pos h, List.filter_cons, if_pos (decide_eq_true h), List.length_cons]
        omega
      · rw [if_neg h, List.filter_cons, if_neg (by simpa using h)]
        omega

lemma postprocess_counters (classLabels : List String) (confTh nmsTh : ℚ)
    (f : Frame) (st : Counters) :
    (postprocess_image classLabels confTh nmsTh f st).1.totalObjects =
        st.totalObjects + (survivors confTh nmsTh f).length ∧
    (postprocess_image classLabels confTh nmsTh f st).1.invalidOutputs =
        st.invalidOutputs + (if f.rows.any RawRow.hasNaN then 1 else 0) ∧
    (postprocess_image classLabels confTh nmsTh f st).1.totalTime =
        st.totalTime ∧
    (postprocess_image classLabels confTh nmsTh f st).1.inferenceTime =
        st.inferenceTime ∧
    (postprocess_image classLabels confTh nmsTh f st).1.numFrames =
        st.numFrames ∧
    keysOf (postprocess_image classLabels confTh nmsTh f st).1.objectsByClass =
        keysOf st.objectsByClass := by
  by_cases hnan : f.rows.any RawRow.hasNaN = true
  · by_cases him : f.imageOk = true
    · simp [postprocess_image, survivors, hnan, him]
    · simp [postprocess_image, survivors, hnan, him]
  · by_cases him : f.imageOk = true
    · cases hdec : decodeAll confTh confTh ((f.width : ℚ) / (f.resizedW : ℚ))
          ((f.height : ℚ) / (f.resizedH : ℚ)) f.width f.height f.rows with
      | error e =>
          simp [postprocess_image, survivors, hnan, him, hdec]
      | ok cands =>
          cases hcd : countDetections classLabels cands (keptIdxOf nmsTh cands) st with
          | mk dets st1 =>
              have hc := countDetections_counters classLabels cands
                (keptIdxOf nmsTh cands) st
              rw [hcd] at hc
              simp only [postprocess_image, survivors, hnan, him, hdec, hcd,
                Bool.false_eq_true, if_false, Bool.not_true, if_neg,
                List.length_map]
              simp only at hc
              exact ⟨hc.1, hc.2.1, hc.2.2.1, hc.2.2.2.1, hc.2.2.2.2.1,
                hc.2.2.2.2.2⟩
    · simp [postprocess_image, survivors, hnan, him]

lemma postprocess_sum (classLabels : List String) (confTh nmsTh : ℚ)
    (f : Frame) (st : Counters)
    (hkeys : keysOf st.objectsByClass = firstDedup classLabels) :
    sumCounts (postprocess_image classLabels confTh nmsTh f st).1.objectsByClass =
      sumCounts st.objectsByClass +
        ((survivors confTh nmsTh f).filter
          (fun c => c.classIdx < classLabels.length)).length := by
  by_cases hnan : f.rows.any RawRow.hasNaN = true
  · by_cases him : f.imageOk = true
    · simp [postprocess_image, survivors, hnan, him]
    · simp [postprocess_image, survivors, hnan, him]
  · by_cases him : f.imageOk = true
    · cases hdec : decodeAll confTh confTh ((f.width : ℚ) / (f.resizedW : ℚ))
          ((f.height : ℚ) / (f.resizedH : ℚ)) f.width f.height f.rows with
      | error e =>
          simp [postprocess_image, survivors, hnan, him, hdec]
      | ok cands =>
          cases hcd : countDetections classLabels cands (keptIdxOf nmsTh cands) st with
          | mk dets st1 =>
              have hs := countDetections_sum classLabels cands
                (keptIdxOf nmsTh cands) st hkeys
              rw [hcd] at hs
              simp only at hs
              simp only [postprocess_image, survivors, hnan, him, hdec, hcd,
                Bool.false_eq_true, if_false, Bool.not_true, if_neg]
              rw [List.filter_map, List.length_map]
              simpa using hs
    · simp [postprocess_image, survivors, hnan, him]

lemma postprocess_except_indep (classLabels : List String) (confTh nmsTh : ℚ)
    (f : Frame) (st st2 : Counters) :
    (postprocess_image classLabels confTh nmsTh f st).2 =
      (postprocess_image classLabels confTh nmsTh f st2).2 := by
  by_cases hnan : f.rows.any RawRow.hasNaN = true
  · by_cases him : f.imageOk = true
    · simp [postprocess_image, hnan, him]
    · simp [postprocess_image, hnan, him]
  · by_cases him : f.imageOk = true
    · cases hdec : decodeAll confTh confTh ((f.width : ℚ) / (f.resizedW : ℚ))
          ((f.height : ℚ) / (f.resizedH : ℚ)) f.width f.height f.rows with
      | error e =>
          simp [postprocess_image, hnan, him, hdec]
      | ok cands =>
          cases hcd : countDetections classLabels cands (keptIdxOf nmsTh cands) st with
          | mk dets st1 =>
            cases hcd2 : countDetections classLabels cands (keptIdxOf nmsTh cands) st2 with
            | mk dets2 stB =>
              have h1 := countDetections_dets classLabels cands (keptIdxOf nmsTh cands) st
              have h2 := countDetections_dets classLabels cands (keptIdxOf nmsTh cands) st2
              rw [hcd] at h1
              rw [hcd2] at h2
              simp only at h1 h2
              simp [postprocess_image, hnan, him, hdec, hcd, hcd2, h1, h2]
    · simp [postprocess_image, hnan, him]

lemma postprocess_ok_iff (classLabels : List String) (confTh nmsTh : ℚ)
    (f : Frame) (st : Counters) :
    isOkB (postprocess_image classLabels confTh nmsTh f st).2 =
      frameSucceeds confTh f := by
  by_cases hnan : f.rows.any RawRow.hasNaN = true
  · by_cases him : f.imageOk = true
    · simp [postprocess_image, frameSucceeds, hnan, him, isOkB]
    · simp [postprocess_image, frameSucceeds, hnan, him, isOkB]
  · by_cases him : f.imageOk = true
    · cases hdec : decodeAll confTh confTh ((f.width : ℚ) / (f.resizedW : ℚ))
          ((f.height : ℚ) / (f.resizedH : ℚ)) f.width f.height f.rows with
      | error e =>
          simp [postprocess_image, frameSucceeds, hnan, him, hdec, isOkB]
      | ok cands =>
          cases hcd : countDetections classLabels cands (keptIdxOf nmsTh cands) st with
          | mk dets st1 =>
              simp [postprocess_image, frameSucceeds, hnan, him, hdec, hcd, isOkB]
    · simp [postprocess_image, frameSucceeds, hnan, him, isOkB]

lemma infer_single_fields (classLabels : List String) (confTh nmsTh : ℚ)
    (p : String) (load : Option Frame) (st : Counters) :
    (infer_single_image classLabels confTh nmsTh p load false st).1.inputPath = p ∧
    (infer_single_image classLabels confTh nmsTh p load false st).1.success =
      (match load with
       | none => false
       | some f => frameSucceeds confTh f) ∧
    (infer_single_image classLabels confTh nmsTh p load false st).2.totalObjects =
      st.totalObjects + loadSurvCount confTh nmsTh load ∧
    (infer_single_image classLabels confTh nmsTh p load false st).2.totalTime =
      st.totalTime + loadTime load ∧
    (infer_single_image classLabels confTh nmsTh p load false st).2.numFrames =
      st.numFrames := by
  cases load with
  | none => simp [infer_single_image, loadSurvCount, loadTime]
  | some f =>
      have hok := postprocess_ok_iff classLabels confTh nmsTh f (preInfSt f st)
      have hpc := postprocess_counters classLabels confTh nmsTh f (preInfSt f st)
      cases hp : postprocess_image classLabels confTh nmsTh f (preInfSt f st) with
      | mk stA ex =>
          rw [hp] at hok hpc
          simp only at hok hpc
          cases ex with
          | error e =>
              simp only [isOkB] at hok
              simp only [infer_single_image]
              simp only [Bool.false_eq_true, if_false, hp]
              refine ⟨trivial, hok, hpc.1, ?_, hpc.2.2.2.2.1⟩
              rw [hpc.2.2.1]
              simp only [preInfSt, loadTime]
              ring
          | ok pr =>
              obtain ⟨dets, ra⟩ := pr
              simp only [isOkB] at hok
              simp only [infer_single_image]
              simp only [Bool.false_eq_true, if_false, hp]
              refine ⟨trivial, hok, hpc.1, ?_, hpc.2.2.2.2.1⟩
              rw [hpc.2.2.1]
              simp only [preInfSt, loadTime]
              ring

lemma folderLoop_spec (classLabels : List String) (confTh nmsTh : ℚ)
    (load : String → Option Frame) (paths : List String)
    (acc : List ImageResult) (st : Counters) :
    (folderLoop classLabels confTh nmsTh load paths acc st).1.map
        ImageResult.inputPath =
      acc.map ImageResult.inputPath ++ paths ∧
    (folderLoop classLabels confTh nmsTh load paths acc st).1.map
        ImageResult.success =
      acc.map ImageResult.success ++ paths.map
        (fun p => match load p with
          | none => false
          | some f => frameSucceeds confTh f) ∧
    (folderLoop classLabels confTh nmsTh load paths acc st).2.totalObjects =
      st.totalObjects + (paths.map (fun p => loadSurvCount confTh nmsTh (load p))).sum ∧
    (folderLoop classLabels confTh nmsTh load paths acc st).2.totalTime =
      st.totalTime + (paths.map (fun p => loadTime (load p))).sum ∧
    (folderLoop classLabels confTh nmsTh load paths acc st).2.numFrames =
      st.numFrames := by
  induction paths generalizing acc st with
  | nil => simp [folderLoop]
  | cons p rest ih =>
      cases hr : infer_single_image classLabels confTh nmsTh p (load p) false st with
      | mk r st1 =>
          have hf := infer_single_fields classLabels confTh nmsTh p (load p) st
          rw [hr] at hf
          simp only at hf
          obtain ⟨hf1, hf2, hf3, hf4, hf5⟩ := hf
          obtain ⟨ih1, ih2, ih3, ih4, ih5⟩ := ih (acc ++ [r]) st1
          simp only [folderLoop, hr]
          refine ⟨?_, ?_, ?_, ?_, ?_⟩
          · rw [ih1]
            simp [hf1]
          · rw [ih2]
            simp [hf2]
          · rw [ih3, hf3]
            simp
            omega
          · rw [ih4, hf4]
            simp
            ring
          · rw [ih5, hf5]

lemma PFloat.leb_total (a b : PFloat) : a.leb b = true ∨ b.leb a = true := by
  cases a <;> cases b <;> simp [PFloat.leb, PFloat.rank]
  exact le_total _ _

lemma PFloat.leb_trans {a b c : PFloat} (h1 : a.leb b = true)
    (h2 : b.leb c = true) : a.leb c = true := by
  cases a <;> cases b <;> cases c <;>
    simp [PFloat.leb, PFloat.rank] at h1 h2 ⊢
  exact le_trans h1 h2

lemma nmsOrder_sorted (confs : List PFloat) :
    (nmsOrder confs).Sorted
      (fun i j => PFloat.leb (confs.getD j .nan) (confs.getD i .nan) = true) := by
  haveI ht : IsTotal ℕ
      (fun i j => PFloat.leb (confs.getD j .nan) (confs.getD i .nan) = true) :=
    ⟨fun i j => PFloat.leb_total _ _⟩
  haveI htr : IsTrans ℕ
      (fun i j => PFloat.leb (confs.getD j .nan) (confs.getD i .nan) = true) :=
    ⟨fun _ _ _ h1 h2 => PFloat.leb_trans h2 h1⟩
  exact List.sorted_insertionSort _ _

lemma nmsOrder_perm (confs : List PFloat) :
    List.Perm (nmsOrder confs) (List.range confs.length) :=
  List.perm_insertionSort _ _

lemma mem_nmsOrder (confs : List PFloat) (i : ℕ) :
    i ∈ nmsOrder confs ↔ i < confs.length := by
  rw [(nmsOrder_perm confs).mem_iff, List.mem_range]

lemma nmsAux_sublist (boxes : List Box) (th : ℚ) :
    ∀ (order kept : List ℕ), List.Sublist (nmsAux boxes th kept order) order := by
  intro order
  induction order with
  | nil =>
      intro kept
      simp [nmsAux]
  | cons i rest ih =>
      intro kept
      simp only [nmsAux]
      split
      · exact (ih _).cons₂ i
      · exact (ih _).cons i

lemma nmsTrace_decision (boxes : List Box) (th : ℚ) :
    ∀ (order kept : List ℕ) (e : ℕ × List ℕ × Bool),
      e ∈ nmsTrace boxes th kept order →
      (e.2.2 = true ↔
        ∀ j ∈ e.2.1, iou (boxes.getD e.1 default) (boxes.getD j default) ≤ th) := by
  intro order
  induction order with
  | nil =>
      intro kept e h
      simp [nmsTrace] at h
  | cons i rest ih =>
      intro kept e h
      simp only [nmsTrace] at h
      by_cases hd : ∀ j ∈ kept,
          iou (boxes.getD i default) (boxes.getD j default) ≤ th
      · rw [if_pos hd] at h
        rcases List.mem_cons.mp h with he | he
        · subst he
          simpa using hd
        · exact ih _ _ he
      · rw [if_neg hd] at h
        rcases List.mem_cons.mp h with he | he
        · subst he
          exact ⟨fun hc => absurd hc (by simp), fun hall => (hd hall).elim⟩
        · exact ih _ _ he

lemma nmsTrace_kept_sub (boxes : List Box) (th : ℚ) :
    ∀ (order kept : List ℕ) (e : ℕ × List ℕ × Bool),
      e ∈ nmsTrace boxes th kept order →
      ∀ j ∈ e.2.1, j ∈ kept ∨ j ∈ nmsAux boxes th kept order := by
  intro order
  induction order with
  | nil =>
      intro kept e h
      simp [nmsTrace] at h
  | cons i rest ih =>
      intro kept e h j hj
      simp only [nmsTrace] at h
      by_cases hd : ∀ j ∈ kept,
          iou (boxes.getD i default) (boxes.getD j default) ≤ th
      · rw [if_pos hd] at h
        rcases List.mem_cons.mp h with he | he
        · subst he
          exact Or.inl hj
        · rcases ih _ _ he j hj with hk | hk
          · rcases List.mem_append.mp hk with hk2 | hk2
            · exact Or.inl hk2
            · simp only [nmsAux, if_pos hd]
              simp only [List.mem_singleton] at hk2
              exact Or.inr (by simp [hk2])
          · simp only [nmsAux, if_pos hd]
            exact Or.inr (List.mem_cons_of_mem _ hk)
      · rw [if_neg hd] at h
        rcases List.mem_cons.mp h with he | he
        · subst he
          exact Or.inl hj
        · rcases ih _ _ he j hj with hk | hk
          · exact Or.inl hk
          · simp only [nmsAux, if_neg hd]
            exact Or.inr hk

lemma nmsTrace_conf (boxes : List Box) (th : ℚ) (key : ℕ → PFloat) :
    ∀ (order kept : List ℕ),
      order.Sorted (fun i j => PFloat.leb (key j) (key i) = true) →
      (∀ j ∈ kept, ∀ i ∈ order, PFloat.leb (key i) (key j) = true) →
      ∀ e ∈ nmsTrace boxes th kept order, ∀ j ∈ e.2.1,
        PFloat.leb (key e.1) (key j) = true := by
  intro order
  induction order with
  | nil =>
      intro kept _ _ e h
      simp [nmsTrace] at h
  | cons i rest ih =>
      intro kept hsort hkept e h j hj
      obtain ⟨hhead, htail⟩ := List.sorted_cons.mp hsort
      simp only [nmsTrace] at h
      by_cases hd : ∀ j ∈ kept,
          iou (boxes.getD i default) (boxes.getD j default) ≤ th
      · rw [if_pos hd] at h
        rcases List.mem_cons.mp h with he | he
        · subst he
          exact hkept j hj i (List.mem_cons_self i rest)
        · refine ih (kept ++ [i]) htail ?_ e he j hj
          intro j' hj' i' hi'
          rcases List.mem_append.mp hj' with hk | hk
          · exact hkept j' hk i' (List.mem_cons_of_mem _ hi')
          · simp only [List.mem_singleton] at hk
            subst hk
            exact hhead i' hi'
      · rw [if_neg hd] at h
        rcases List.mem_cons.mp h with he | he
        · subst he
          exact hkept j hj i (List.mem_cons_self i rest)
        · refine ih kept htail ?_ e he j hj
          intro j' hj' i' hi'
          exact hkept j' hj' i' (List.mem_cons_of_mem _ hi')

lemma nmsAux_eq_trace (boxes : List Box) (th : ℚ) :
    ∀ (order kept : List ℕ),
      nmsAux boxes th kept order =
        (nmsTrace boxes th kept order).filterMap
          (fun e => if e.2.2 then some e.1 else none) := by
  intro order
  induction order with
  | nil =>
      intro kept
      simp [nmsAux, nmsTrace]
  | cons i rest ih =>
      intro kept
      by_cases hd : ∀ j ∈ kept,
          iou (boxes.getD i default) (boxes.getD j default) ≤ th
      · simp only [nmsAux, nmsTrace, if_pos hd]
        simp [ih]
      · simp only [nmsAux, nmsTrace, if_neg hd]
        simp [ih]

lemma nmsTrace_firsts (boxes : List Box) (th : ℚ) :
    ∀ (order kept : List ℕ),
      (nmsTrace boxes th kept order).map (fun e => e.1) = order := by
  intro order
  induction order with
  | nil =>
      intro kept
      simp [nmsTrace]
  | cons i rest ih =>
      intro kept
      by_cases hd : ∀ j ∈ kept,
          iou (boxes.getD i default) (boxes.getD j default) ≤ th
      · simp only [nmsTrace, if_pos hd]
        simp [ih]
      · simp only [nmsTrace, if_neg hd]
        simp [ih]

lemma length_filter_split {α : Type} (p : α → Bool) (l : List α) :
    l.length = (l.filter p).length + (l.filter (fun x => !(p x))).length := by
  induction l with
  | nil => simp
  | cons a t ih =>
      by_cases h : p a = true
      · simp only [List.filter_cons, h, Bool.not_true, List.length_cons]
        simp
        omega
      · simp only [List.filter_cons, h, Bool.not_eq_true] at ih ⊢
        simp [Bool.not_eq_true, h] at ih ⊢
        omega

lemma processFrames_spec (classLabels : List String) (confTh nmsTh : ℚ) :
    ∀ (frames : List Frame) (st : Counters),
      keysOf st.objectsByClass = firstDedup classLabels →
      ((frames.foldl
          (fun st f => (postprocess_image classLabels confTh nmsTh f st).1)
          st).totalObjects =
        st.totalObjects +
          (frames.map (fun f => (survivors confTh nmsTh f).length)).sum ∧
      sumCounts (frames.foldl
          (fun st f => (postprocess_image classLabels confTh nmsTh f st).1)
          st).objectsByClass =
        sumCounts st.objectsByClass +
          (frames.map (fun f => ((survivors confTh nmsTh f).filter
            (fun c => c.classIdx < classLabels.length)).length)).sum ∧
      keysOf (frames.foldl
          (fun st f => (postprocess_image classLabels confTh nmsTh f st).1)
          st).objectsByClass = firstDedup classLabels) := by
  intro frames
  induction frames with
  | nil =>
      intro st hkeys
      refine ⟨by simp, by simp, by simpa using hkeys⟩
  | cons f rest ih =>
      intro st hkeys
      have hpc := postprocess_counters classLabels confTh nmsTh f st
      have hps := postprocess_sum classLabels confTh nmsTh f st hkeys
      have hkeys2 : keysOf (postprocess_image classLabels confTh nmsTh f
          st).1.objectsByClass = firstDedup classLabels := by
        rw [hpc.2.2.2.2.2, hkeys]
      obtain ⟨ih1, ih2, ih3⟩ :=
        ih ((postprocess_image classLabels confTh nmsTh f st).1) hkeys2
      refine ⟨?_, ?_, ?_⟩
      · simp only [List.foldl_cons, List.map_cons, List.sum_cons]
        rw [ih1, hpc.1]
        omega
      · simp only [List.foldl_cons, List.map_cons, List.sum_cons]
        rw [ih2, hps]
        omega
      · simpa using ih3

lemma PFloat.geb_of_not_lt (p : PFloat) (q : ℚ) (hn : p.isnan = false)
    (h : PFloat.lt p (.val q) = false) : p.geb q = true := by
  cases p with
  | val a =>
      simp [PFloat.lt] at h
      simpa [PFloat.geb] using h
  | nan => simp [PFloat.isnan] at hn
  | posInf => simp [PFloat.geb]
  | negInf => simp [PFloat.lt] at h

lemma npArgmaxGo_lt :
    ∀ (xs : List PFloat) (i bi : ℕ) (bv : PFloat), bi < i →
      npArgmaxGo xs i bi bv < i + xs.length := by
  intro xs
  induction xs with
  | nil =>
      intro i bi bv h
      simpa [npArgmaxGo] using h
  | cons x rest ih =>
      intro i bi bv h
      have hlen : (x :: rest).length = rest.length + 1 := rfl
      simp only [npArgmaxGo]
      by_cases hb : PFloat.lt bv x = true
      · rw [if_pos hb]
        have := ih (i + 1) i x (Nat.lt_succ_self i)
        omega
      · rw [if_neg hb]
        have := ih (i + 1) bi bv (Nat.lt_succ_of_lt h)
        omega

lemma npArgmax_lt (xs : List PFloat) (h : xs.isEmpty = false) :
    npArgmax xs < xs.length := by
  cases xs with
  | nil => simp at h
  | cons x rest =>
      simp only [npArgmax, List.length_cons]
      have := npArgmaxGo_lt rest 1 0 x Nat.zero_lt_one
      omega

lemma bestScore_not_nan (r : RawRow) (hnan : r.hasNaN = false)
    (hne : r.scores.isEmpty = false) :
    (r.scores.getD (npArgmax r.scores) .nan).isnan = false := by
  have hlt := npArgmax_lt r.scores hne
  have hmem : r.scores.getD (npArgmax r.scores) .nan ∈ r.scores := by
    rw [List.getD_eq_getElem?_getD, List.getElem?_eq_getElem hlt]
    exact List.getElem_mem hlt
  simp only [RawRow.hasNaN, Bool.or_eq_false_iff] at hnan
  have hall := hnan.2
  rw [List.any_eq_false] at hall
  simpa using hall _ hmem

lemma conf_not_nan (r : RawRow) (hnan : r.hasNaN = false) :
    r.conf.isnan = false := by
  simp only [RawRow.hasNaN, Bool.or_eq_false_iff] at hnan
  exact hnan.1.2

lemma decodeRow_some_inv (confTh scoreTh scaleX scaleY : ℚ)
    (width height : ℤ) (r : RawRow) (c : Candidate)
    (h : decodeRow confTh scoreTh scaleX scaleY width height r = .ok (some c)) :
    r.hasNaN = false ∧
    PFloat.lt r.conf (.val confTh) = false ∧
    r.scores.isEmpty = false ∧
    PFloat.lt (r.scores.getD (npArgmax r.scores) .nan) (.val scoreTh) = false ∧
    ∃ cx cy bw bh : ℚ,
      r.cx = .val cx ∧ r.cy = .val cy ∧ r.w = .val bw ∧ r.h = .val bh ∧
      ¬(min (width - max 0 (pyTrunc ((cx - bw / 2) * scaleX)))
          (pyTrunc (bw * scaleX)) ≤ 0 ∨
        min (height - max 0 (pyTrunc ((cy - bh / 2) * scaleY)))
          (pyTrunc (bh * scaleY)) ≤ 0) ∧
      c = ⟨npArgmax r.scores, r.conf,
        max 0 (pyTrunc ((cx - bw / 2) * scaleX)),
        max 0 (pyTrunc ((cy - bh / 2) * scaleY)),
        min (width - max 0 (pyTrunc ((cx - bw / 2) * scaleX)))
          (pyTrunc (bw * scaleX)),
        min (height - max 0 (pyTrunc ((cy - bh / 2) * scaleY)))
          (pyTrunc (bh * scaleY)),
        (cx, cy, bw, bh)⟩ := by
  have h' := h
  simp only [decodeRow] at h'
  by_cases h1 : r.hasNaN = true
  · rw [if_pos h1] at h'
    exact absurd h' (by simp)
  rw [if_neg h1] at h'
  rw [Bool.not_eq_true] at h1
  by_cases h2 : PFloat.lt r.conf (.val confTh) = true
  · rw [if_pos h2] at h'
    exact absurd h' (by simp)
  rw [if_neg h2] at h'
  rw [Bool.not_eq_true] at h2
  by_cases h3 : r.scores.isEmpty = true
  · rw [if_pos h3] at h'
    exact absurd h' (by simp)
  rw [if_neg h3] at h'
  rw [Bool.not_eq_true] at h3
  by_cases h4 : PFloat.lt (r.scores.getD (npArgmax r.scores) .nan)
      (.val scoreTh) = true
  · rw [if_pos h4] at h'
    exact absurd h' (by simp)
  rw [if_neg h4] at h'
  rw [Bool.not_eq_true] at h4
  refine ⟨h1, h2, h3, h4, ?_⟩
  cases hx : r.cx with
  | nan =>
      rw [hx] at h'
      simp [PFloat.toRat] at h'
  | posInf =>
      rw [hx] at h'
      simp [PFloat.toRat] at h'
  | negInf =>
      rw [hx] at h'
      simp [PFloat.toRat] at h'
  | val cx =>
      rw [hx] at h'
      cases hy : r.cy with
      | nan =>
          rw [hy] at h'
          simp [PFloat.toRat] at h'
      | posInf =>
          rw [hy] at h'
          simp [PFloat.toRat] at h'
      | negInf =>
          rw [hy] at h'
          simp [PFloat.toRat] at h'
      | val cy =>
          rw [hy] at h'
          cases hw : r.w with
          | nan =>
              rw [hw] at h'
              simp [PFloat.toRat] at h'
          | posInf =>
              rw [hw] at h'
              simp [PFloat.toRat] at h'
          | negInf =>
              rw [hw] at h'
              simp [PFloat.toRat] at h'
          | val bw =>
              rw [hw] at h'
              cases hh : r.h with
              | nan =>
                  rw [hh] at h'
                  simp [PFloat.toRat] at h'
              | posInf =>
                  rw [hh] at h'
                  simp [PFloat.toRat] at h'
              | negInf =>
                  rw [hh] at h'
                  simp [PFloat.toRat] at h'
              | val bh =>
                  rw [hh] at h'
                  simp only [PFloat.toRat] at h'
                  by_cases h5 :
                      min (width - max 0 (pyTrunc ((cx - bw / 2) * scaleX)))
                        (pyTrunc (bw * scaleX)) ≤ 0 ∨
                      min (height - max 0 (pyTrunc ((cy - bh / 2) * scaleY)))
                        (pyTrunc (bh * scaleY)) ≤ 0
                  · rw [if_pos h5] at h'
                    exact absurd h' (by simp)
                  · rw [if_neg h5] at h'
                    refine ⟨cx, cy, bw, bh, rfl, rfl, rfl, rfl, h5, ?_⟩
                    exact (Option.some.inj (Except.ok.inj h')).symm

/-- C1 (amended): for every raw output tensor that contains at least one
NaN value anywhere (the code checks np.isnan, not general finiteness),
postprocess_image short-circuits: it emits zero candidates, increments
the invalid-output counter by exactly one, leaves every other counter
untouched, and writes the unmodified image annotated only with the fixed
warning caption — no per-row decoding is attempted. -/
theorem nan_whole_frame_short_circuit (classLabels : List String)
    (confTh nmsTh : ℚ) (f : Frame) (st : Counters)
    (hnan : f.rows.any RawRow.hasNaN = true) (him : f.imageOk = true) :
    postprocess_image classLabels confTh nmsTh f st =
      ({ st with invalidOutputs := st.invalidOutputs + 1 },
        .ok ([], .warningCaption)) := by
  simp [postprocess_image, hnan, him]

/-- Witness for C1's theorem at a concrete NaN-bearing frame. -/
theorem nan_whole_frame_short_circuit_witness :
    nanFrame.rows.any RawRow.hasNaN = true ∧
    postprocess_image [("person")] (1/4) (45/100) nanFrame
        (reset_counters [("person")]) =
      ({ reset_counters [("person")] with invalidOutputs :=
          (reset_counters [("person")]).invalidOutputs + 1 },
        .ok ([], .warningCaption)) :=
  ⟨by with_unfolding_all decide,
   nan_whole_frame_short_circuit [("person")] (1/4) (45/100) nanFrame
     (reset_counters [("person")]) (by with_unfolding_all decide)
     (by with_unfolding_all decide)⟩

/-- Counterexample for C1 as stated: a tensor whose single row is entirely
positive infinity is non-finite everywhere yet contains no NaN, so
postprocess_image does not short-circuit: the invalid-output counter is
not incremented (the counters are returned unchanged) and the render
action is the ordinary annotated image, not the warning caption; the
per-row decoding loop runs and skips the row. -/
theorem nonfinite_no_short_circuit_counterexample :
    infRow.hasNonFinite = true ∧
    infFrame.rows.any RawRow.hasNaN = false ∧
    postprocess_image [("person")] (1/4) (45/100) infFrame
        (reset_counters [("person")]) =
      (reset_counters [("person")], .ok ([], .annotated [])) := by
  with_unfolding_all decide

/-- C2 (amended): generate_metrics is guarded by frame_count > 0, not by
total_time > 0.  With frame_count = 0 it silently returns the empty
report (no DivideByZero).  With frame_count > 0 and total_time = 0 the
FPS division raises DivideByZero.  With frame_count > 0 and a nonzero
total_time it returns the filled report whose entries are exact ratios
(never infinity or NaN). -/
theorem generate_metrics_guard (st : Counters) :
    (st.numFrames = 0 → generate_metrics st = .ok none) ∧
    (0 < st.numFrames → st.totalTime = 0 →
      generate_metrics st = .error .divideByZero) ∧
    (0 < st.numFrames → st.totalTime ≠ 0 →
      generate_metrics st = .ok (some
        { numFrames := st.numFrames
          totalTime := st.totalTime
          inferenceTime := st.inferenceTime
          averageFps := (st.numFrames : ℚ) / st.totalTime
          averageInferenceTime := st.inferenceTime / (st.numFrames : ℚ)
          totalObjects := st.totalObjects
          invalidOutputs := st.invalidOutputs
          objectsByClass := st.objectsByClass })) := by
  refine ⟨?_, ?_, ?_⟩
  · intro h
    simp [generate_metrics, h]
  · intro h ht
    simp [generate_metrics, h, ht]
  · intro h ht
    simp [generate_metrics, h, ht]

/-- Witness for C2's theorem at concrete counter states covering the
three branches. -/
theorem generate_metrics_guard_witness :
    generate_metrics
      { totalObjects := 0, objectsByClass := [], invalidOutputs := 0,
        totalTime := 0, inferenceTime := 0, numFrames := 0 } = .ok none ∧
    generate_metrics
      { totalObjects := 0, objectsByClass := [], invalidOutputs := 0,
        totalTime := 0, inferenceTime := 0, numFrames := 1 } =
      .error .divideByZero ∧
    generate_metrics
      { totalObjects := 3, objectsByClass := [], invalidOutputs := 0,
        totalTime := 2, inferenceTime := 1, numFrames := 4 } = .ok (some
      { numFrames := 4, totalTime := 2, inferenceTime := 1,
        averageFps := ((4 : ℕ) : ℚ) / 2,
        averageInferenceTime := (1 : ℚ) / ((4 : ℕ) : ℚ), totalObjects := 3,
        invalidOutputs := 0, objectsByClass := [] }) :=
  ⟨(generate_metrics_guard _).1 rfl,
   (generate_metrics_guard _).2.1 (by decide) rfl,
   (generate_metrics_guard _).2.2 (by decide)
     (by with_unfolding_all decide)⟩

/-- Counterexample for C2 as stated: with frame_count = 0 (and even
total_time = 0 simultaneously) generate_metrics does not fail with
DivideByZero — it silently returns the empty report. -/
theorem generate_metrics_zero_frames_counterexample :
    (reset_counters [("person")]).numFrames = 0 ∧
    (reset_counters [("person")]).totalTime = 0 ∧
    generate_metrics (reset_counters [("person")]) = .ok none := by
  with_unfolding_all decide

/-- C5: the decoding loop rejects a row whose objectness is strictly
below the confidence threshold and a row whose best class score is
strictly below the score threshold (the comparisons are <, so equality
with a threshold is accepted), and every emitted candidate has
confidence at least the confidence threshold and best class score at
least the score threshold.  In the single-threshold variant
(detect_trt_server.py) postprocess_image instantiates the score
threshold with conf_th itself; detect_trt_fp32_server.py passes its
separate score_th. -/
theorem decoder_threshold_filter (confTh scoreTh scaleX scaleY : ℚ)
    (width height : ℤ) (r : RawRow) :
    (PFloat.lt r.conf (.val confTh) = true →
      decodeRow confTh scoreTh scaleX scaleY width height r = .ok none) ∧
    (r.hasNaN = false → r.scores.isEmpty = false →
      PFloat.lt (r.scores.getD (npArgmax r.scores) .nan) (.val scoreTh) = true →
      decodeRow confTh scoreTh scaleX scaleY width height r = .ok none) ∧
    (∀ c : Candidate,
      decodeRow confTh scoreTh scaleX scaleY width height r = .ok (some c) →
      c.conf.geb confTh = true ∧
      (r.scores.getD (npArgmax r.scores) .nan).geb scoreTh = true) := by
  refine ⟨?_, ?_, ?_⟩
  · intro h
    simp only [decodeRow]
    by_cases h1 : r.hasNaN = true
    · rw [if_pos h1]
    · rw [if_neg h1, if_pos h]
  · intro h1 h3 h4
    simp only [decodeRow]
    rw [if_neg (by simp [h1])]
    by_cases h2 : PFloat.lt r.conf (.val confTh) = true
    · rw [if_pos h2]
    · rw [if_neg h2, if_neg (by simp [h3]), if_pos h4]
  · intro c hc
    obtain ⟨h1, h2, h3, h4, cx, cy, bw, bh, _, _, _, _, _, hrec⟩ :=
      decodeRow_some_inv confTh scoreTh scaleX scaleY width height r c hc
    constructor
    · have : c.conf = r.conf := by rw [hrec]
      rw [this]
      exact PFloat.geb_of_not_lt r.conf confTh (conf_not_nan r h1) h2
    · exact PFloat.geb_of_not_lt _ scoreTh (bestScore_not_nan r h1 h3) h4

/-- Witness for C5's theorem: a row with objectness exactly equal to the
threshold 1/4 is accepted and decoded (boundary acceptance), and the
rejection clause fires on a row strictly below the threshold. -/
theorem decoder_threshold_filter_witness :
    decodeRow (1/4) (1/4) 1 1 640 640
      ⟨.val 100, .val 100, .val 50, .val 60, .val (1/5), [.val (1/2)]⟩ =
        .ok none ∧
    decodeRow (1/4) (1/4) 1 1 640 640 boundaryRow =
      .ok (some ⟨0, .val (1/4), 75, 70, 50, 60, (100, 100, 50, 60)⟩) ∧
    (PFloat.val (1/4)).geb (1/4) = true ∧
    (boundaryRow.scores.getD (npArgmax boundaryRow.scores) .nan).geb (1/4) =
      true :=
  ⟨(decoder_threshold_filter (1/4) (1/4) 1 1 640 640
      ⟨.val 100, .val 100, .val 50, .val 60, .val (1/5), [.val (1/2)]⟩).1
      (by with_unfolding_all decide),
   by with_unfolding_all decide,
   ((decoder_threshold_filter (1/4) (1/4) 1 1 640 640 boundaryRow).2.2
      ⟨0, .val (1/4), 75, 70, 50, 60, (100, 100, 50, 60)⟩
      (by with_unfolding_all decide)).1,
   ((decoder_threshold_filter (1/4) (1/4) 1 1 640 640 boundaryRow).2.2
      ⟨0, .val (1/4), 75, 70, 50, 60, (100, 100, 50, 60)⟩
      (by with_unfolding_all decide)).2⟩

/-- C6: every candidate emitted by the decoding loop has a clamped box:
nonnegative top-left corner, box contained in the image
(x + width ≤ image width, y + height ≤ image height), and strictly
positive width and height — rows whose converted box violates this are
rejected rather than emitted. -/
theorem candidate_box_clamped (confTh scoreTh scaleX scaleY : ℚ)
    (width height : ℤ) (r : RawRow) (c : Candidate)
    (h : decodeRow confTh scoreTh scaleX scaleY width height r = .ok (some c)) :
    0 ≤ c.x ∧ 0 ≤ c.y ∧ c.x + c.w ≤ width ∧ c.y + c.h ≤ height ∧
    0 < c.w ∧ 0 < c.h := by
  obtain ⟨_, _, _, _, cx, cy, bw, bh, _, _, _, _, h5, hrec⟩ :=
    decodeRow_some_inv confTh scoreTh scaleX scaleY width height r c h
  push_neg at h5
  subst hrec
  simp only
  refine ⟨le_max_left _ _, le_max_left _ _, ?_, ?_, ?_, ?_⟩
  · have hmin := min_le_left
      (width - max 0 (pyTrunc ((cx - bw / 2) * scaleX))) (pyTrunc (bw * scaleX))
    omega
  · have hmin := min_le_left
      (height - max 0 (pyTrunc ((cy - bh / 2) * scaleY))) (pyTrunc (bh * scaleY))
    omega
  · omega
  · omega

/-- Witness for C6's theorem at a concrete decoded candidate. -/
theorem candidate_box_clamped_witness :
    0 ≤ (75 : ℤ) ∧ 0 ≤ (70 : ℤ) ∧ (75 : ℤ) + 50 ≤ 640 ∧
    (70 : ℤ) + 60 ≤ 640 ∧ 0 < (50 : ℤ) ∧ 0 < (60 : ℤ) :=
  candidate_box_clamped (1/4) (1/4) 1 1 640 640 boundaryRow
    ⟨0, .val (1/4), 75, 70, 50, 60, (100, 100, 50, 60)⟩
    (by with_unfolding_all decide)

/-- C7: the Suppressor (spec-modelled greedy NMS standing for the external
cv2.dnn.NMSBoxes call, which receives only boxes and confidences — no
class information, so suppression is joint across classes).  Zero
candidates yield the empty result; on the concrete scenario of two
overlapping boxes with confidences 9/10 and 8/10 and IoU 7/10 against
threshold 45/100 only the first box is kept; the visit order is a
permutation of all candidate indices sorted by non-increasing confidence;
the retained set is exactly the trace entries decided true; and a visited
candidate is suppressed exactly when its IoU with some previously
retained candidate exceeds the threshold, every previously retained
candidate being itself retained in the final result and of
higher-or-equal confidence. -/
theorem suppressor_greedy_nms :
    (∀ th : ℚ, nmsBoxesModel [] [] th = []) ∧
    (iou ⟨0, 0, 10, 10⟩ ⟨0, 0, 10, 7⟩ = 7/10 ∧
      nmsBoxesModel [⟨0, 0, 10, 10⟩, ⟨0, 0, 10, 7⟩]
        [.val (9/10), .val (8/10)] (45/100) = [0]) ∧
    (∀ (boxes : List Box) (confs : List PFloat) (th : ℚ),
      List.Perm (nmsOrder confs) (List.range confs.length) ∧
      (nmsOrder confs).Sorted
        (fun i j => PFloat.leb (confs.getD j .nan) (confs.getD i .nan) = true) ∧
      (nmsTrace boxes th [] (nmsOrder confs)).map (fun e => e.1) =
        nmsOrder confs ∧
      nmsBoxesModel boxes confs th =
        (nmsTrace boxes th [] (nmsOrder confs)).filterMap
          (fun e => if e.2.2 then some e.1 else none) ∧
      ∀ e ∈ nmsTrace boxes th [] (nmsOrder confs),
        (e.2.2 = false ↔ ∃ j ∈ e.2.1,
          th < iou (boxes.getD e.1 default) (boxes.getD j default)) ∧
        ∀ j ∈ e.2.1, j ∈ nmsBoxesModel boxes confs th ∧
          PFloat.leb (confs.getD e.1 .nan) (confs.getD j .nan) = true) := by
  refine ⟨?_, ⟨?_, ?_⟩, ?_⟩
  · intro th
    rfl
  · with_unfolding_all decide
  · with_unfolding_all decide
  · intro boxes confs th
    refine ⟨nmsOrder_perm confs, nmsOrder_sorted confs,
      nmsTrace_firsts boxes th _ _, nmsAux_eq_trace boxes th _ _, ?_⟩
    intro e he
    refine ⟨?_, ?_⟩
    · have hdec := nmsTrace_decision boxes th (nmsOrder confs) [] e he
      constructor
      · intro hfalse
        by_contra hnone
        push_neg at hnone
        have htrue : e.2.2 = true := hdec.mpr (fun j hj => hnone j hj)
        rw [htrue] at hfalse
        exact absurd hfalse (by simp)
      · intro hex
        cases hb : e.2.2 with
        | false => rfl
        | true =>
            obtain ⟨j, hj, hgt⟩ := hex
            have := hdec.mp hb j hj
            exact absurd hgt (not_lt.mpr this)
    · intro j hj
      constructor
      · have := nmsTrace_kept_sub boxes th (nmsOrder confs) [] e he j hj
        rcases this with hk | hk
        · simp at hk
        · exact hk
      · exact nmsTrace_conf boxes th (fun i => confs.getD i .nan)
          (nmsOrder confs) [] (nmsOrder_sorted confs) (by simp) e he j hj

/-- Witness for C7's theorem: on the concrete two-box scenario the trace
records the lower-confidence box as suppressed with the retained
higher-confidence box as the IoU culprit. -/
theorem suppressor_greedy_nms_witness :
    ((1, [0], false) : ℕ × List ℕ × Bool) ∈
      nmsTrace [⟨0, 0, 10, 10⟩, ⟨0, 0, 10, 7⟩] (45/100) []
        (nmsOrder [.val (9/10), .val (8/10)]) ∧
    (((1, [0], false) : ℕ × List ℕ × Bool).2.2 = false ↔
      ∃ j ∈ [0], (45/100 : ℚ) <
        iou (([⟨0, 0, 10, 10⟩, ⟨0, 0, 10, 7⟩] : List Box).getD 1 default)
          (([⟨0, 0, 10, 10⟩, ⟨0, 0, 10, 7⟩] : List Box).getD j default)) :=
  ⟨by with_unfolding_all decide,
   ((suppressor_greedy_nms.2.2 [⟨0, 0, 10, 10⟩, ⟨0, 0, 10, 7⟩]
      [.val (9/10), .val (8/10)] (45/100)).2.2.2.2
      (1, [0], false) (by with_unfolding_all decide)).1⟩

lemma write_fold (batches : List (String × List Detection)) :
    ∀ rows : List LogRow,
      batches.foldl (fun fs b => write_detections_to_csv fs b.1 b.2)
        (some rows) =
      some (rows ++ (batches.map (fun b => detectionRows b.1 b.2)).flatten) := by
  induction batches with
  | nil =>
      intro rows
      simp
  | cons b rest ih =>
      intro rows
      by_cases hd : b.2.isEmpty = true
      · have hw : write_detections_to_csv (some rows) b.1 b.2 = some rows := by
          simp [write_detections_to_csv, hd]
        have hrows : detectionRows b.1 b.2 = [] := by
          rw [List.isEmpty_iff] at hd
          simp [detectionRows, hd]
        simp only [List.foldl_cons, hw, ih, List.map_cons, List.flatten_cons,
          hrows, List.nil_append]
      · have hw : write_detections_to_csv (some rows) b.1 b.2 =
            some (rows ++ detectionRows b.1 b.2) := by
          simp [write_detections_to_csv, hd]
        simp only [List.foldl_cons, hw, ih, List.map_cons, List.flatten_cons]
        simp [List.append_assoc]

/-- C8: the detection log model: initializing an absent file writes
exactly the fixed header row once; initializing an existing file leaves
it untouched; every write to an existing file appends exactly one row
per surviving detection after the existing rows, truncating nothing; and
a whole server lifecycle (initialize the absent file, then any sequence
of per-image writes) leaves the file as the header row followed by the
appended detection rows in write order. -/
theorem csv_log_append_only :
    init_csv_file none = some [LogRow.header] ∧
    (∀ rows : List LogRow, init_csv_file (some rows) = some rows) ∧
    (∀ (file : List LogRow) (imagePath : String) (dets : List Detection),
      write_detections_to_csv (some file) imagePath dets =
        some (file ++ detectionRows imagePath dets)) ∧
    (∀ batches : List (String × List Detection),
      batches.foldl (fun fs b => write_detections_to_csv fs b.1 b.2)
        (init_csv_file none) =
      some (LogRow.header ::
        (batches.map (fun b => detectionRows b.1 b.2)).flatten)) := by
  refine ⟨rfl, fun rows => rfl, ?_, ?_⟩
  · intro file imagePath dets
    by_cases hd : dets.isEmpty = true
    · have : detectionRows imagePath dets = [] := by
        rw [List.isEmpty_iff] at hd
        simp [detectionRows, hd]
      simp [write_detections_to_csv, hd, this]
    · simp [write_detections_to_csv, hd]
  · intro batches
    rw [show init_csv_file none = some [LogRow.header] from rfl,
      write_fold batches [LogRow.header]]
    rfl

lemma write_detections_some (file : List LogRow) (imagePath : String)
    (dets : List Detection) :
    write_detections_to_csv (some file) imagePath dets =
      some (file ++ detectionRows imagePath dets) := by
  by_cases hd : dets.isEmpty = true
  · have hrows : detectionRows imagePath dets = [] := by
      rw [List.isEmpty_iff] at hd
      simp [detectionRows, hd]
    simp [write_detections_to_csv, hd, hrows]
  · simp [write_detections_to_csv, hd]

lemma process_folder_csv_append :
    ∀ (results : List ImageResult) (rows : List LogRow),
      process_folder_csv (some rows) results =
        some (rows ++ (results.map (fun r =>
          if r.success then detectionRows r.inputPath r.detections
          else [])).flatten) := by
  intro results
  induction results with
  | nil =>
      intro rows
      simp [process_folder_csv]
  | cons r rest ih =>
      intro rows
      by_cases hs : r.success = true
      · simp only [process_folder_csv, if_pos hs, write_detections_some, ih,
          List.map_cons, List.flatten_cons, if_pos hs]
        simp [List.append_assoc]
      · simp only [process_folder_csv, if_neg hs, ih, List.map_cons,
          List.flatten_cons, if_neg hs]
        simp

/-- C4 (amended): within a folder command the images are processed in
the order produced by the directory listing after extension filtering —
the code never sorts — and both the per-image result dictionaries and
the detection log rows are appended in that same processing order. -/
theorem folder_processing_order (classLabels : List String)
    (confTh nmsTh : ℚ) (folder : String) (listing : List String)
    (load : String → Option Frame) (b : FolderBatch)
    (h : (infer_folder classLabels confTh nmsTh folder listing load).1 =
      .ok (.batch b)) :
    b.results.map ImageResult.inputPath =
      get_images_from_folder folder listing ∧
    ∀ rows : List LogRow,
      process_folder_csv (some rows) b.results =
        some (rows ++ (b.results.map (fun r =>
          if r.success then detectionRows r.inputPath r.detections
          else [])).flatten) := by
  refine ⟨?_, fun rows => process_folder_csv_append b.results rows⟩
  simp only [infer_folder] at h
  by_cases hp : (get_images_from_folder folder listing).isEmpty = true
  · rw [if_pos hp] at h
    simp at h
  · rw [if_neg hp] at h
    cases hfl : folderLoop classLabels confTh nmsTh load
        (get_images_from_folder folder listing) []
        ({ reset_counters classLabels with
            numFrames := (get_images_from_folder folder listing).length }) with
    | mk results st2 =>
        rw [hfl] at h
        have hspec := (folderLoop_spec classLabels confTh nmsTh load
          (get_images_from_folder folder listing) []
          ({ reset_counters classLabels with
              numFrames := (get_images_from_folder folder listing).length })).1
        rw [hfl] at hspec
        simp only [List.map_nil, List.nil_append] at hspec
        cases hm : generate_metrics st2 with
        | error e =>
            rw [hm] at h
            simp at h
        | ok m =>
            rw [hm] at h
            simp only [Except.ok.injEq, FolderOutcome.batch.injEq] at h
            rw [← h]
            exact hspec

/-- Witness for C4's theorem on a concrete one-image folder run: both
the result order and the log-row append are exercised. -/
theorem folder_processing_order_witness :
    ([⟨true, ("d/b.jpg"), []⟩] : List ImageResult).map ImageResult.inputPath =
      get_images_from_folder ("d") [("b.jpg")] ∧
    process_folder_csv (some [LogRow.header])
        [⟨true, ("d/b.jpg"), []⟩] =
      some ([LogRow.header] ++
        (([⟨true, ("d/b.jpg"), []⟩] : List ImageResult).map (fun r =>
          if r.success then detectionRows r.inputPath r.detections
          else [])).flatten) :=
  ⟨(folder_processing_order [("person")] (1/4) (45/100) ("d") [("b.jpg")]
      (fun _ => some trivFrame)
      { metrics := some
          { numFrames := 1, totalTime := 1, inferenceTime := 0,
            averageFps := ((1 : ℕ) : ℚ) / 1,
            averageInferenceTime := (0 : ℚ) / ((1 : ℕ) : ℚ),
            totalObjects := 0, invalidOutputs := 0,
            objectsByClass := [(("person"), 0)] },
        results := [⟨true, ("d/b.jpg"), []⟩] }
      (by with_unfolding_all decide)).1,
   (folder_processing_order [("person")] (1/4) (45/100) ("d") [("b.jpg")]
      (fun _ => some trivFrame)
      { metrics := some
          { numFrames := 1, totalTime := 1, inferenceTime := 0,
            averageFps := ((1 : ℕ) : ℚ) / 1,
            averageInferenceTime := (0 : ℚ) / ((1 : ℕ) : ℚ),
            totalObjects := 0, invalidOutputs := 0,
            objectsByClass := [(("person"), 0)] },
        results := [⟨true, ("d/b.jpg"), []⟩] }
      (by with_unfolding_all decide)).2 [LogRow.header]⟩

/-- Counterexample for C4 as stated: a directory listing that is not in
lexicographic order is processed exactly in listing order — the result
list reports b.jpg before a.jpg, which is not sorted. -/
theorem folder_not_lexicographic_counterexample :
    get_images_from_folder ("d") [("b.jpg"), ("a.jpg")] =
      [("d/b.jpg"), ("d/a.jpg")] ∧
    (folderResultsOf (infer_folder [("person")] (1/4) (45/100) ("d")
        [("b.jpg"), ("a.jpg")] (fun _ => some trivFrame)).1).map
      ImageResult.inputPath = [("d/b.jpg"), ("d/a.jpg")] ∧
    ¬ List.Sorted (fun a b : String => a ≤ b)
      [("d/b.jpg"), ("d/a.jpg")] := by
  refine ⟨by with_unfolding_all decide, by with_unfolding_all decide, ?_⟩
  intro hs
  have := List.rel_of_sorted_cons hs ("d/a.jpg") (by simp)
  revert this
  with_unfolding_all decide

/-- C3 (amended): a folder of three images where the second fails to
load yields a result list with three entries in which exactly one is
marked failed, the batch still reports aggregate success, and the
returned metrics count all three listed images in frame_count — the
failed image is not subtracted; only the object counters are limited to
the two successfully processed frames. -/
theorem folder_partial_failure (classLabels : List String)
    (confTh nmsTh : ℚ) (folder : String) (load : String → Option Frame)
    (fa fc : Frame)
    (ha : load (pathJoin folder ("a.jpg")) = some fa)
    (hb : load (pathJoin folder ("b.jpg")) = none)
    (hc : load (pathJoin folder ("c.jpg")) = some fc)
    (hsa : frameSucceeds confTh fa = true)
    (hsc : frameSucceeds confTh fc = true)
    (ht : fa.preTime + fa.infTime + (fc.preTime + fc.infTime) ≠ 0) :
    ∃ b : FolderBatch,
      (infer_folder classLabels confTh nmsTh folder
        [("a.jpg"), ("b.jpg"), ("c.jpg")] load).1 = .ok (.batch b) ∧
      b.results.length = 3 ∧
      b.results.map ImageResult.success = [true, false, true] ∧
      (b.results.filter (fun r => r.success = false)).length = 1 ∧
      Option.map MetricsData.numFrames b.metrics = some 3 := by
  have hpaths : get_images_from_folder folder
      [("a.jpg"), ("b.jpg"), ("c.jpg")] =
      [pathJoin folder ("a.jpg"), pathJoin folder ("b.jpg"),
       pathJoin folder ("c.jpg")] := by
    simp only [get_images_from_folder]
    rw [List.filter_eq_self.mpr (by with_unfolding_all decide)]
    rfl
  simp only [infer_folder, hpaths]
  rw [if_neg (by simp)]
  cases hfl : folderLoop classLabels confTh nmsTh load
      [pathJoin folder ("a.jpg"), pathJoin folder ("b.jpg"),
       pathJoin folder ("c.jpg")] []
      ({ reset_counters classLabels with numFrames :=
          ([pathJoin folder ("a.jpg"), pathJoin folder ("b.jpg"),
            pathJoin folder ("c.jpg")] : List String).length }) with
  | mk results st2 =>
      have hspec := folderLoop_spec classLabels confTh nmsTh load
        [pathJoin folder ("a.jpg"), pathJoin folder ("b.jpg"),
         pathJoin folder ("c.jpg")] []
        ({ reset_counters classLabels with numFrames :=
            ([pathJoin folder ("a.jpg"), pathJoin folder ("b.jpg"),
              pathJoin folder ("c.jpg")] : List String).length })
      rw [hfl] at hspec
      simp only at hspec
      obtain ⟨hs1, hs2, hs3, hs4, hs5⟩ := hspec
      have hsucc : results.map ImageResult.success = [true, false, true] := by
        rw [hs2]
        simp [ha, hb, hc, hsa, hsc]
      have hlen : results.length = 3 := by
        have hmap := congrArg List.length hsucc
        simpa using hmap
      have hnum : st2.numFrames = 3 := by
        rw [hs5]
        rfl
      have htt : st2.totalTime =
          fa.preTime + fa.infTime + (fc.preTime + fc.infTime) := by
        rw [hs4]
        simp only [List.map_cons, List.map_nil, ha, hb, hc, loadTime,
          List.sum_cons, List.sum_nil]
        show (0 : ℚ) + _ = _
        ring
      have htt0 : st2.totalTime ≠ 0 := by
        rw [htt]
        exact ht
      have hgm : generate_metrics st2 = .ok (some
          { numFrames := st2.numFrames, totalTime := st2.totalTime,
            inferenceTime := st2.inferenceTime,
            averageFps := (st2.numFrames : ℚ) / st2.totalTime,
            averageInferenceTime :=
              st2.inferenceTime / (st2.numFrames : ℚ),
            totalObjects := st2.totalObjects,
            invalidOutputs := st2.invalidOutputs,
            objectsByClass := st2.objectsByClass }) := by
        simp only [generate_metrics]
        rw [if_pos (by rw [hnum]; norm_num), if_neg htt0]
      simp only [hgm]
      refine ⟨⟨some
        { numFrames := st2.numFrames, totalTime := st2.totalTime,
          inferenceTime := st2.inferenceTime,
          averageFps := (st2.numFrames : ℚ) / st2.totalTime,
          averageInferenceTime := st2.inferenceTime / (st2.numFrames : ℚ),
          totalObjects := st2.totalObjects,
          invalidOutputs := st2.invalidOutputs,
          objectsByClass := st2.objectsByClass },
        results⟩, rfl, hlen, hsucc, ?_, by simp [hnum]⟩
      have hcount := List.countP_map
        (p := fun x : Bool => decide (x = false)) (f := ImageResult.success)
        (l := results)
      rw [hsucc] at hcount
      rw [← List.countP_eq_length_filter]
      rw [show (List.countP (fun x : Bool => decide (x = false))
        [true, false, true]) = 1 from by decide] at hcount
      exact hcount.symm

/-- Witness for C3's theorem on a concrete run whose middle image fails
to load. -/
theorem folder_partial_failure_witness :
    ∃ b : FolderBatch,
      (infer_folder [("person")] (1/4) (45/100) ("d")
        [("a.jpg"), ("b.jpg"), ("c.jpg")]
        (fun p => if p = ("d/b.jpg") then none else some trivFrame)).1 =
        .ok (.batch b) ∧
      b.results.length = 3 ∧
      b.results.map ImageResult.success = [true, false, true] ∧
      (b.results.filter (fun r => r.success = false)).length = 1 ∧
      Option.map MetricsData.numFrames b.metrics = some 3 :=
  folder_partial_failure [("person")] (1/4) (45/100) ("d")
    (fun p => if p = ("d/b.jpg") then none else some trivFrame)
    trivFrame trivFrame
    (by with_unfolding_all decide) (by with_unfolding_all decide)
    (by with_unfolding_all decide) (by with_unfolding_all decide)
    (by with_unfolding_all decide) (by with_unfolding_all decide)

/-- Counterexample for C3 as stated: in the three-image run whose middle
image fails to load, the returned metrics report frame_count 3 — the
number of listed images, including the failed one — not the claimed 2;
the batch does have three entries of which exactly one is failed. -/
theorem folder_metrics_frames_counterexample :
    Option.map MetricsData.numFrames (folderMetricsOf
      (infer_folder [("person")] (1/4) (45/100) ("d")
        [("a.jpg"), ("b.jpg"), ("c.jpg")]
        (fun p => if p = ("d/b.jpg") then none else some trivFrame)).1) =
      some 3 ∧
    (folderResultsOf (infer_folder [("person")] (1/4) (45/100) ("d")
        [("a.jpg"), ("b.jpg"), ("c.jpg")]
        (fun p => if p = ("d/b.jpg") then none else some trivFrame)).1).length =
      3 ∧
    ((folderResultsOf (infer_folder [("person")] (1/4) (45/100) ("d")
        [("a.jpg"), ("b.jpg"), ("c.jpg")]
        (fun p => if p = ("d/b.jpg") then none else some trivFrame)).1).filter
      (fun r => r.success = false)).length = 1 ∧
    (3 : ℕ) ≠ 2 := by
  with_unfolding_all decide

/-- C9: a two-image folder processed in session-scoped accumulation
(reset once, then both images processed without resetting) ends with
frame_count 2 and total_objects equal to the sum of the two images'
individual surviving-detection counts. -/
theorem session_metrics_additivity (classLabels : List String)
    (confTh nmsTh : ℚ) (folder : String) (load : String → Option Frame)
    (f1 f2 : Frame)
    (h1 : load (pathJoin folder ("a.jpg")) = some f1)
    (h2 : load (pathJoin folder ("b.jpg")) = some f2) :
    (infer_folder classLabels confTh nmsTh folder [("a.jpg"), ("b.jpg")]
      load).2.numFrames = 2 ∧
    (infer_folder classLabels confTh nmsTh folder [("a.jpg"), ("b.jpg")]
      load).2.totalObjects =
      (survivors confTh nmsTh f1).length +
        (survivors confTh nmsTh f2).length := by
  have hpaths : get_images_from_folder folder [("a.jpg"), ("b.jpg")] =
      [pathJoin folder ("a.jpg"), pathJoin folder ("b.jpg")] := by
    simp only [get_images_from_folder]
    rw [List.filter_eq_self.mpr (by with_unfolding_all decide)]
    rfl
  simp only [infer_folder, hpaths]
  rw [if_neg (by simp)]
  cases hfl : folderLoop classLabels confTh nmsTh load
      [pathJoin folder ("a.jpg"), pathJoin folder ("b.jpg")] []
      ({ reset_counters classLabels with numFrames :=
          ([pathJoin folder ("a.jpg"), pathJoin folder ("b.jpg")] :
            List String).length }) with
  | mk results st2 =>
      have hspec := folderLoop_spec classLabels confTh nmsTh load
        [pathJoin folder ("a.jpg"), pathJoin folder ("b.jpg")] []
        ({ reset_counters classLabels with numFrames :=
            ([pathJoin folder ("a.jpg"), pathJoin folder ("b.jpg")] :
              List String).length })
      rw [hfl] at hspec
      simp only at hspec
      obtain ⟨-, -, hs3, -, hs5⟩ := hspec
      have hnum : st2.numFrames = 2 := by
        rw [hs5]
        rfl
      have hobj : st2.totalObjects =
          (survivors confTh nmsTh f1).length +
            (survivors confTh nmsTh f2).length := by
        rw [hs3]
        simp only [List.map_cons, List.map_nil, h1, h2, loadSurvCount,
          List.sum_cons, List.sum_nil, reset_counters]
        omega
      cases hm : generate_metrics st2 with
      | error e =>
          simp only [hm]
          exact ⟨hnum, hobj⟩
      | ok m =>
          simp only [hm]
          exact ⟨hnum, hobj⟩

/-- Witness for C9's theorem on a concrete two-image run. -/
theorem session_metrics_additivity_witness :
    (infer_folder [("person")] (1/4) (45/100) ("d") [("a.jpg"), ("b.jpg")]
      (fun _ => some trivFrame)).2.numFrames = 2 ∧
    (infer_folder [("person")] (1/4) (45/100) ("d") [("a.jpg"), ("b.jpg")]
      (fun _ => some trivFrame)).2.totalObjects =
      (survivors (1/4) (45/100) trivFrame).length +
        (survivors (1/4) (45/100) trivFrame).length :=
  session_metrics_additivity [("person")] (1/4) (45/100) ("d")
    (fun _ => some trivFrame) trivFrame trivFrame rfl rfl

lemma sum_map_split {α : Type} (g h : α → ℕ) (l : List α) :
    (l.map (fun x => g x + h x)).sum = (l.map g).sum + (l.map h).sum := by
  induction l with
  | nil => simp
  | cons a t ih =>
      simp only [List.map_cons, List.sum_cons, ih]
      omega

/-- C10: after any sequence of postprocess_image calls starting from
freshly reset counters, total_objects equals the sum of the per-class
counts plus the number of surviving detections whose class index lies
outside the label table (those are labeled with the sentinel but counted
only in total_objects); hence total_objects is always at least the
per-class sum, with equality exactly when every surviving detection's
class index is in range. -/
theorem objects_by_class_sum_bound (classLabels : List String)
    (confTh nmsTh : ℚ) (frames : List Frame) :
    (processFrames classLabels confTh nmsTh frames).totalObjects =
      sumCounts (processFrames classLabels confTh nmsTh
        frames).objectsByClass +
        (frames.map (fun f => ((survivors confTh nmsTh f).filter
          (fun c => !(decide (c.classIdx < classLabels.length)))).length)).sum ∧
    sumCounts (processFrames classLabels confTh nmsTh frames).objectsByClass ≤
      (processFrames classLabels confTh nmsTh frames).totalObjects ∧
    ((processFrames classLabels confTh nmsTh frames).totalObjects =
        sumCounts (processFrames classLabels confTh nmsTh
          frames).objectsByClass ↔
      ∀ f ∈ frames, ∀ c ∈ survivors confTh nmsTh f,
        c.classIdx < classLabels.length) := by
  obtain ⟨h1, h2, h3⟩ := processFrames_spec classLabels confTh nmsTh frames
    (reset_counters classLabels) (keysOf_reset classLabels)
  have hmapsplit :
      (frames.map (fun f => (survivors confTh nmsTh f).length)).sum =
      (frames.map (fun f => ((survivors confTh nmsTh f).filter
        (fun c => decide (c.classIdx < classLabels.length))).length)).sum +
      (frames.map (fun f => ((survivors confTh nmsTh f).filter
        (fun c => !(decide (c.classIdx < classLabels.length)))).length)).sum := by
    rw [← sum_map_split]
    congr 1
    apply List.map_congr_left
    intro f _
    exact length_filter_split _ _
  have htot : (processFrames classLabels confTh nmsTh frames).totalObjects =
      (frames.map (fun f => (survivors confTh nmsTh f).length)).sum := by
    rw [show processFrames classLabels confTh nmsTh frames =
      frames.foldl
        (fun st f => (postprocess_image classLabels confTh nmsTh f st).1)
        (reset_counters classLabels) from rfl, h1]
    simp [reset_counters]
  have hsum : sumCounts (processFrames classLabels confTh nmsTh
      frames).objectsByClass =
      (frames.map (fun f => ((survivors confTh nmsTh f).filter
        (fun c => decide (c.classIdx < classLabels.length))).length)).sum := by
    rw [show processFrames classLabels confTh nmsTh frames =
      frames.foldl
        (fun st f => (postprocess_image classLabels confTh nmsTh f st).1)
        (reset_counters classLabels) from rfl, h2, sumCounts_reset]
    omega
  have heq1 : (processFrames classLabels confTh nmsTh frames).totalObjects =
      sumCounts (processFrames classLabels confTh nmsTh
        frames).objectsByClass +
        (frames.map (fun f => ((survivors confTh nmsTh f).filter
          (fun c => !(decide (c.classIdx < classLabels.length)))).length)).sum := by
    rw [htot, hsum, hmapsplit]
  refine ⟨heq1, by omega, ?_⟩
  have hBzero :
      (frames.map (fun f => ((survivors confTh nmsTh f).filter
        (fun c => !(decide (c.classIdx < classLabels.length)))).length)).sum = 0 ↔
      ∀ f ∈ frames, ∀ c ∈ survivors confTh nmsTh f,
        c.classIdx < classLabels.length := by
    rw [List.sum_eq_zero_iff]
    constructor
    · intro hz f hf c hcm
      by_contra hnc
      have hcmem : c ∈ (survivors confTh nmsTh f).filter
          (fun c => !(decide (c.classIdx < classLabels.length))) :=
        List.mem_filter.mpr ⟨hcm, by simp [hnc]⟩
      have hlen := hz (((survivors confTh nmsTh f).filter
          (fun c => !(decide (c.classIdx < classLabels.length)))).length)
        (List.mem_map_of_mem _ hf)
      have hpos : 0 < ((survivors confTh nmsTh f).filter
          (fun c => !(decide (c.classIdx < classLabels.length)))).length :=
        List.length_pos.mpr (List.ne_nil_of_mem hcmem)
      omega
    · intro hall x hx
      obtain ⟨f, hf, rfl⟩ := List.mem_map.mp hx
      rw [List.length_eq_zero]
      rw [List.filter_eq_nil_iff]
      intro c hcm
      simp [hall f hf c hcm]
  constructor
  · intro he
    rw [← hBzero]
    omega
  · intro hall
    have := hBzero.mpr hall
    omega

/-- Witness for C10's theorem at a concrete frame list. -/
theorem objects_by_class_sum_bound_witness :
    (processFrames [("person")] (1/4) (45/100)
      [trivFrame, infFrame]).totalObjects =
      sumCounts (processFrames [("person")] (1/4) (45/100)
        [trivFrame, infFrame]).objectsByClass +
        (([trivFrame, infFrame] : List Frame).map
          (fun f => ((survivors (1/4) (45/100) f).filter
            (fun c => !(decide (c.classIdx <
              ([("person")] : List String).length)))).length)).sum :=
  (objects_by_class_sum_bound [("person")] (1/4) (45/100)
    [trivFrame, infFrame]).1
